import Mathlib

/-!
# go-status-gif: pattern parsing, palette construction, pixel classification
and animation assembly

A shallow embedding of `cmd/root.go`.  Go strings are Lean strings, the Go `int`
is a 64-bit signed integer carried in `Int`, `uint8` is a `Nat` reduced modulo
256, the package-level variables `pattern` and `colorTracking` are threaded
through as an explicit state, and a Go run-time panic is an `Except` error.
-/

set_option autoImplicit false

/-! ## Standard-library functions used by the source -/

namespace strings

/-- Character-level worker of `Split s " "`: the pieces between occurrences of
the single space character, empty pieces included. -/
def splitSpace : List Char → List (List Char)
  | [] => [[]]
  | c :: cs =>
    if c = ' ' then [] :: splitSpace cs
    else
      match splitSpace cs with
      | [] => [[c]]
      | t :: ts => (c :: t) :: ts

/-- Go `strings.Split(s, " ")`: cuts `s` at every single space; the result is
never empty (the empty string yields one empty piece). -/
def Split (s : String) : List String :=
  (splitSpace s.data).map String.mk

/-- Character-level worker of `Join elems " "`. -/
def joinSpace : List (List Char) → List Char
  | [] => []
  | [t] => t
  | t :: u :: ts => t ++ ' ' :: joinSpace (u :: ts)

/-- Go `strings.Join(elems, " ")`: the elements separated by one space each. -/
def Join (elems : List String) : String :=
  String.mk (joinSpace (elems.map String.data))

end strings

namespace strconv

/-- The two error causes of Go `strconv.NumError`. -/
inductive NumError where
  | ErrSyntax
  | ErrRange
  deriving DecidableEq, Repr

/-- Width of the Go `int` type on the 64-bit platforms the tool is built for. -/
def intSize : Nat := 64

/-- Go `maxUint64`. -/
def maxUint64 : Nat := 2 ^ 64 - 1

/-- Go `lower(c)`, that is `c | ('x' - 'X')`. -/
def lower (c : Nat) : Nat := c ||| 0x20

/-- Digit value of one input character in `ParseUint`: decimal digits give
their value, ASCII letters give `10 + offset`, anything else is rejected. -/
def digitValue (c : Char) : Option Nat :=
  if 48 ≤ c.toNat ∧ c.toNat ≤ 57 then some (c.toNat - 48)
  else if 97 ≤ lower c.toNat ∧ lower c.toNat ≤ 122 then some (lower c.toNat - 97 + 10)
  else none

/-- The digit loop of Go `strconv.ParseUint(s, 10, 64)` with accumulator `n`
(a `uint64`).  A character that is not a digit of base 10 stops with
`ErrSyntax` and value 0; an accumulator that would leave the `uint64` range
stops with `ErrRange` and the maximal value, before the remaining characters
are looked at. -/
def parseUintLoop : List Char → Nat → Nat × Option NumError
  | [], n => (n, none)
  | c :: cs, n =>
    match digitValue c with
    | none => (0, some NumError.ErrSyntax)
    | some d =>
      if 10 ≤ d then (0, some NumError.ErrSyntax)
      else if maxUint64 / 10 + 1 ≤ n then (maxUint64, some NumError.ErrRange)
      else
        let n10 := (n * 10) % 2 ^ 64
        let n1 := (n10 + d) % 2 ^ 64
        if n1 < n10 ∨ maxUint64 < n1 then (maxUint64, some NumError.ErrRange)
        else parseUintLoop cs n1

/-- Go `strconv.ParseUint(s, 10, 64)`. -/
def ParseUint (s : List Char) : Nat × Option NumError :=
  match s with
  | [] => (0, some NumError.ErrSyntax)
  | _ :: _ => parseUintLoop s 0

/-- Conversion `int64(u)` of a `uint64`: two's-complement reinterpretation. -/
def toInt64 (u : Nat) : Int :=
  if u % 2 ^ 64 < 2 ^ 63 then ((u % 2 ^ 64 : Nat) : Int) else ((u % 2 ^ 64 : Nat) : Int) - 2 ^ 64

/-- Negation of an `int64`, wrapping at the minimal value. -/
def negInt64 (n : Int) : Int :=
  if n = -(2 ^ 63) then n else -n

/-- Go `strconv.ParseInt(s, 10, 0)` on a 64-bit platform: an optional sign
followed by `ParseUint`.  A malformed text gives 0, a magnitude outside the
`int64` range gives the nearest bound; both come with an error. -/
def ParseInt (s : List Char) : Int × Option NumError :=
  match s with
  | [] => (0, some NumError.ErrSyntax)
  | c :: rest =>
    let neg : Bool := c = '-'
    let body := if c = '+' ∨ c = '-' then rest else s
    let r := ParseUint body
    if r.2 = some NumError.ErrSyntax then (0, r.2)
    else if neg = false ∧ 2 ^ (intSize - 1) ≤ r.1 then
      (2 ^ (intSize - 1) - 1, some NumError.ErrRange)
    else if neg = true ∧ 2 ^ (intSize - 1) < r.1 then
      (-(2 ^ (intSize - 1)), some NumError.ErrRange)
    else (if neg then negInt64 (toInt64 r.1) else toInt64 r.1, none)

/-- Go `strconv.Atoi(s)`: `ParseInt(s, 10, 0)` converted to `int`.  (The
short-input fast path of `Atoi` computes the same pair and is not modelled
separately.) -/
def Atoi (s : String) : Int × Option NumError :=
  ParseInt s.data

end strconv

/-! ## Run-time panics -/

/-- A Go run-time panic raised while the source runs: an index past the end of
a slice, or the refusal of `image.NewPaletted` to allocate a rectangle with
huge or negative dimensions. -/
inductive RuntimePanic where
  | indexOutOfRange (index length : Nat)
  | hugeOrNegativeDimensions
  deriving DecidableEq, Repr

deriving instance DecidableEq for Except

/-! ## Colours, images and the animation record -/

namespace color

/-- The implementations of Go `color.Color` that occur in the source. -/
inductive Color where
  | Gray16 (Y : Nat)
  | RGBA (R G B A : Nat)
  deriving DecidableEq, Repr

/-- Go `color.White`. -/
def White : Color := Color.Gray16 0xffff

/-- Go `color.Black`. -/
def Black : Color := Color.Gray16 0

end color

namespace image

/-- Go `image.Rectangle`: `Min` inclusive, `Max` exclusive. -/
structure Rectangle where
  MinX : Int
  MinY : Int
  MaxX : Int
  MaxY : Int
  deriving DecidableEq, Repr

/-- Go `image.Rect(x0, y0, x1, y1)`: coordinates are swapped where needed so
that the result is well formed. -/
def Rect (x0 y0 x1 y1 : Int) : Rectangle :=
  { MinX := if x0 > x1 then x1 else x0
    MinY := if y0 > y1 then y1 else y0
    MaxX := if x0 > x1 then x0 else x1
    MaxY := if y0 > y1 then y0 else y1 }

/-- Go `Rectangle.Dx`. -/
def Rectangle.Dx (r : Rectangle) : Int := r.MaxX - r.MinX

/-- Go `Rectangle.Dy`. -/
def Rectangle.Dy (r : Rectangle) : Int := r.MaxY - r.MinY

/-- Go `Point.In`. -/
def Rectangle.contains (r : Rectangle) (x y : Int) : Bool :=
  decide (r.MinX ≤ x ∧ x < r.MaxX ∧ r.MinY ≤ y ∧ y < r.MaxY)

/-- Go `image.Paletted`; a nil colour in the palette is `none`. -/
structure Paletted where
  Pix : List Nat
  Stride : Int
  Rect : Rectangle
  Palette : List (Option color.Color)
  deriving DecidableEq, Repr

/-- The image that Go `image.NewPaletted(r, p)` returns when it returns: all
pixels start at index 0. -/
def Paletted.fresh (r : Rectangle) (p : List (Option color.Color)) : Paletted :=
  { Pix := List.replicate (r.Dx * r.Dy).toNat 0
    Stride := r.Dx
    Rect := r
    Palette := p }

/-- Whether the pixel buffer length of Go `pixelBufferLength(1, r, ...)` is a
non-negative `int`: both sides non-negative and their product below 2^63. -/
def Rectangle.allocatable (r : Rectangle) : Bool :=
  decide (0 ≤ r.Dx ∧ 0 ≤ r.Dy ∧ r.Dx * r.Dy < 2 ^ 63)

/-- Go `image.NewPaletted(r, p)`: panics on a rectangle with huge or negative
dimensions, otherwise returns the fresh image.  (Exhaustion of memory by a
buffer of representable length is not modelled.) -/
def NewPaletted (r : Rectangle) (p : List (Option color.Color)) :
    Except RuntimePanic Paletted :=
  if r.allocatable then Except.ok (Paletted.fresh r p)
  else Except.error RuntimePanic.hugeOrNegativeDimensions

/-- Go `Paletted.PixOffset`. -/
def Paletted.PixOffset (p : Paletted) (x y : Int) : Int :=
  (y - p.Rect.MinY) * p.Stride + (x - p.Rect.MinX)

/-- Go `Paletted.SetColorIndex`: a point outside the rectangle is ignored. -/
def Paletted.SetColorIndex (p : Paletted) (x y : Int) (index : Nat) : Paletted :=
  if p.Rect.contains x y then
    { p with Pix := p.Pix.set (p.PixOffset x y).toNat (index % 256) }
  else p

/-- Go `Paletted.ColorIndexAt`: a point outside the rectangle reads as 0. -/
def Paletted.ColorIndexAt (p : Paletted) (x y : Int) : Nat :=
  if p.Rect.contains x y then p.Pix.getD (p.PixOffset x y).toNat 0 else 0

end image

namespace gif

/-- The fields of Go `gif.GIF` that the source fills in. -/
structure GIF where
  Image : List image.Paletted
  Delay : List Int
  LoopCount : Int
  deriving DecidableEq, Repr

end gif

/-! ## The program: `cmd/root.go` -/

/-- One animation step: palette index (`uint8`) and delay in 1/100 s (`int`). -/
structure schedule where
  color : Nat
  duration : Int
  deriving DecidableEq, Repr

/-- The map literal `colors`: the recognized colour names. -/
def colorTable : List (String × color.Color) :=
  [ ("white", color.White),
    ("black", color.Black),
    ("red", color.Color.RGBA 255 0 0 255),
    ("redoff", color.Color.RGBA 127 0 0 255),
    ("green", color.Color.RGBA 0 255 0 255),
    ("greenoff", color.Color.RGBA 0 127 0 255),
    ("blue", color.Color.RGBA 0 0 255 255),
    ("blueoff", color.Color.RGBA 0 0 127 255),
    ("yellow", color.Color.RGBA 0 255 255 255),
    ("yellowoff", color.Color.RGBA 0 127 127 255) ]

/-- The map read `colors[c]`: a missing key gives the nil colour. -/
def colors (c : String) : Option color.Color :=
  colorTable.lookup c

/-- The package-level variables that the run mutates.  `colorTracking` is a Go
map; its entries are kept here in insertion order. -/
structure Globals where
  pattern : List schedule
  colorTracking : List (String × Nat)
  deriving DecidableEq, Repr

/-- Initial values of `pattern` and `colorTracking`. -/
def Globals.initial : Globals :=
  { pattern := []
    colorTracking := [("white", 0), ("black", 1)] }

/-- Initial value of `patternInput` (the default of the `pattern` flag). -/
def patternInput : String := "red 50 redoff 50 red 50 redoff 50 red 50 redoff 500"

/-- Initial value of `size`. -/
def size : Int := 500

/-- Initial value of `border`. -/
def border : Int := 25

/-- The map read `colorTracking[c]`: a missing key gives 0. -/
def trackedIndex (m : List (String × Nat)) (c : String) : Nat :=
  (m.lookup c).getD 0

/-- The guarded insertion `if !exists { colorTracking[name] = len(colorTracking) }`. -/
def track (m : List (String × Nat)) (name : String) : List (String × Nat) :=
  if (m.lookup name).isSome then m else m ++ [(name, m.length)]

/-- One pass through the body of the loop in `rootCmd.Run`, for the tokens
`p[i] = name` and `p[i+1] = durationText`. -/
def loopBody (g : Globals) (name durationText : String) : Globals :=
  let d := (strconv.Atoi durationText).1
  let m := track g.colorTracking name
  { pattern := g.pattern ++ [{ color := trackedIndex m name % 256, duration := d }]
    colorTracking := m }

/-- The loop `for i := 0; i < len(p); i += 2` of `rootCmd.Run`; the second
argument is `i`, the third the tokens from position `i` on.  Reading `p[i+1]`
past the end of `p` panics. -/
def parseLoop (len : Nat) : Nat → List String → Globals → Except RuntimePanic Globals
  | _, [], g => Except.ok g
  | i, [_], _ => Except.error (RuntimePanic.indexOutOfRange (i + 1) len)
  | i, name :: durationText :: rest, g =>
    parseLoop len (i + 2) rest (loopBody g name durationText)

/-- Lines 60-77 of `rootCmd.Run`: split the pattern text at single spaces and
run the loop from the initial package state. -/
def parsePattern (input : String) : Except RuntimePanic Globals :=
  let p := strings.Split input
  parseLoop p.length 0 p Globals.initial

/-- The palette loop of `createBasicGif`.  `order i` is the sequence in which
the `i`-th execution of `for c := range colorTracking` visits the keys (Go
leaves that order unspecified). -/
def buildPalette (m : List (String × Nat)) (order : Nat → List String) :
    List (Option color.Color) :=
  (List.range m.length).foldl
    (fun palette i =>
      (order i).foldl
        (fun palette c => if i = trackedIndex m c then palette ++ [colors c] else palette)
        palette)
    []

/-- The value `int(distanceFromCenter(x, y, centerX, centerY))` used by
`createBasicGif`: the square root of the squared distance, truncated.  The
radicand is far below 2^52 for every canvas that fits in memory, where the
truncated floating-point root is the integer square root. -/
def distanceFromCenter (x y centerX centerY : Int) : Int :=
  (Nat.sqrt ((x - centerX) * (x - centerX) + (y - centerY) * (y - centerY)).toNat : Nat)

/-- The integers `lo, lo+1, ..., hi-1` visited by `for v := lo; v < hi; v++`. -/
def loopRange (lo hi : Int) : List Int :=
  (List.range (hi - lo).toNat).map (fun k => lo + (k : Int))

/-- The `switch` in the pixel loop of `createBasicGif` for one pixel. -/
def paintPixel (pattern : List schedule) (size radius : Int)
    (images : List image.Paletted) (x y : Int) : List image.Paletted :=
  let d := distanceFromCenter x y (size.tdiv 2) (size.tdiv 2)
  if d > radius then images
  else if d > radius - 10 then images.map (fun im => im.SetColorIndex x y 1)
  else List.zipWith (fun im s => im.SetColorIndex x y s.color) images pattern

/-- The animation that `createBasicGif` hands to the encoder when every call of
`image.NewPaletted` returns: one fresh image and one delay per frame, then the
pixel loops. -/
def buildAnimation (g : Globals) (size margin : Int) (order : Nat → List String) : gif.GIF :=
  let radius := (size - margin * 2).tdiv 2
  let palette := buildPalette g.colorTracking order
  let rect := image.Rect 0 0 (size - 1) (size - 1)
  let start : List image.Paletted × List Int :=
    g.pattern.foldl
      (fun acc s => (acc.1 ++ [image.Paletted.fresh rect palette], acc.2 ++ [s.duration]))
      ([], [])
  let images :=
    (loopRange margin (size - margin)).foldl
      (fun images x =>
        (loopRange margin (size - margin)).foldl
          (fun images y => paintPixel g.pattern size radius images x y)
          images)
      start.1
  { LoopCount := 0
    Delay := start.2
    Image := images }

/-- The loop `for i := 0; i < len(pattern); i++` of `createBasicGif` that appends
one new image and one delay per frame; a panic of `image.NewPaletted` ends it. -/
def allocLoop (rect : image.Rectangle) (palette : List (Option color.Color)) :
    List schedule → List image.Paletted × List Int →
      Except RuntimePanic (List image.Paletted × List Int)
  | [], acc => Except.ok acc
  | s :: rest, acc =>
    match image.NewPaletted rect palette with
    | Except.error e => Except.error e
    | Except.ok im => allocLoop rect palette rest (acc.1 ++ [im], acc.2 ++ [s.duration])

/-- Go `createBasicGif(out, size, margin)` up to the call of the encoder: the
result is the animation handed to `gif.EncodeAll`, or the panic raised while
the images are allocated. -/
def createBasicGif (g : Globals) (size margin : Int) (order : Nat → List String) :
    Except RuntimePanic gif.GIF :=
  let radius := (size - margin * 2).tdiv 2
  let palette := buildPalette g.colorTracking order
  let rect := image.Rect 0 0 (size - 1) (size - 1)
  match allocLoop rect palette g.pattern ([], []) with
  | Except.error e => Except.error e
  | Except.ok start =>
    let images :=
      (loopRange margin (size - margin)).foldl
        (fun images x =>
          (loopRange margin (size - margin)).foldl
            (fun images y => paintPixel g.pattern size radius images x y)
            images)
        start.1
    Except.ok
      { LoopCount := 0
        Delay := start.2
        Image := images }

/-- The body of `rootCmd.Run` after the output file is open: parse the pattern,
then build the animation. -/
def Run (input : String) (size border : Int) (order : Nat → List String) :
    Except RuntimePanic gif.GIF :=
  match parsePattern input with
  | Except.error e => Except.error e
  | Except.ok g => createBasicGif g size border order

/-! ## Vocabulary of the statements -/

/-- The tokens at positions 0, 2, 4, ... of a token list: the colour names. -/
def colourNames : List String → List String
  | [] => []
  | [a] => [a]
  | a :: _ :: rest => a :: colourNames rest

/-- The consecutive (name, durationText) pairs of a token list. -/
def tokenPairs : List String → List (String × String)
  | a :: b :: rest => (a, b) :: tokenPairs rest
  | _ => []

/-- The names `ks` followed by those of `names` not seen before, each once, in
the order of their first occurrence. -/
def keysAfter (ks names : List String) : List String :=
  names.foldl (fun ks n => if n ∈ ks then ks else ks ++ [n]) ks

/-- The map that sends the `i`-th name of `ks` to `i`. -/
def indexed (ks : List String) : List (String × Nat) :=
  ks.zip (List.range ks.length)

/-- The number denoted by a string of decimal digits. -/
def decimalValue (ds : List Char) : Nat :=
  ds.foldl (fun n c => n * 10 + (c.toNat - 48)) 0

/-- The recognized colour names: the keys of `colors`. -/
def recognized : List String :=
  colorTable.map Prod.fst

/-- The frame that the loop appends for one (name, durationText) pair when
`ks` are the names of the final palette map. -/
def frameOf (ks : List String) (p : String × String) : schedule :=
  { color := ks.indexOf p.1 % 256, duration := (strconv.Atoi p.2).1 }

/-- Whether a character is one of the decimal digits `0` to `9`. -/
def isDecimalDigit (c : Char) : Bool :=
  decide (48 ≤ c.toNat ∧ c.toNat ≤ 57)

/-- The token list `name₀, duration₀, name₁, duration₁, ...` of a list of
(name, durationText) pairs. -/
def flattenPairs : List (String × String) → List String
  | [] => []
  | p :: ps => p.1 :: p.2 :: flattenPairs ps

/-- What the `switch` of the pixel loop does, at the pixel (x, y), to the image
of one frame whose colour index is `color`. -/
def paintOne (size radius : Int) (color : Nat) (im : image.Paletted) (x y : Int) :
    image.Paletted :=
  let d := distanceFromCenter x y (size.tdiv 2) (size.tdiv 2)
  if d > radius then im
  else if d > radius - 10 then im.SetColorIndex x y 1
  else im.SetColorIndex x y color

/-- The consistency that `image.NewPaletted` establishes between the rectangle,
the stride and the pixel buffer of an image. -/
def image.Paletted.WellFormed (p : image.Paletted) : Prop :=
  0 ≤ p.Rect.Dx ∧ 0 ≤ p.Rect.Dy ∧ p.Stride = p.Rect.Dx ∧
    p.Pix.length = (p.Rect.Dx * p.Rect.Dy).toNat

/-- The palette index found at (x, y) after the pixel loops of `createBasicGif`
in the image of a frame whose colour index is `color`: a pixel that the loops
visit, that lies in the image rectangle and whose truncated distance to the
centre is at most the radius holds 1 in the 10-pixel ring and the frame's
colour inside; every other pixel holds 0. -/
def pixelValue (size margin : Int) (color : Nat) (x y : Int) : Nat :=
  if margin ≤ x ∧ x < size - margin ∧ margin ≤ y ∧ y < size - margin ∧
      (image.Rect 0 0 (size - 1) (size - 1)).contains x y = true ∧
      distanceFromCenter x y (size.tdiv 2) (size.tdiv 2) ≤ (size - margin * 2).tdiv 2 then
    if distanceFromCenter x y (size.tdiv 2) (size.tdiv 2) > (size - margin * 2).tdiv 2 - 10
    then 1 else color % 256
  else 0

/-! ## Tokenizing -/

namespace strings

theorem splitSpace_ne_nil (cs : List Char) : splitSpace cs ≠ [] := by
  cases cs with
  | nil => simp [splitSpace]
  | cons c cs =>
    unfold splitSpace
    split
    · simp
    · split <;> simp

theorem splitSpace_of_no_space (t : List Char) (h : ' ' ∉ t) : splitSpace t = [t] := by
  induction t with
  | nil => rfl
  | cons c cs ih =>
    have hc : c ≠ ' ' := fun e => h (by simp [e])
    have hcs : ' ' ∉ cs := fun e => h (List.mem_cons_of_mem _ e)
    simp [splitSpace, hc, ih hcs]

theorem splitSpace_append_space (t rest : List Char) (h : ' ' ∉ t) :
    splitSpace (t ++ ' ' :: rest) = t :: splitSpace rest := by
  induction t with
  | nil => simp [splitSpace]
  | cons c cs ih =>
    have hc : c ≠ ' ' := fun e => h (by simp [e])
    have hcs : ' ' ∉ cs := fun e => h (List.mem_cons_of_mem _ e)
    simp [splitSpace, hc, ih hcs]

theorem splitSpace_joinSpace (ts : List (List Char)) (hne : ts ≠ [])
    (h : ∀ t ∈ ts, ' ' ∉ t) : splitSpace (joinSpace ts) = ts := by
  induction ts with
  | nil => exact absurd rfl hne
  | cons t ts ih =>
    cases ts with
    | nil => simpa [joinSpace] using splitSpace_of_no_space t (h t (by simp))
    | cons u us =>
      have ht : ' ' ∉ t := h t (by simp)
      have hrest : ∀ v ∈ u :: us, ' ' ∉ v := fun v hv => h v (List.mem_cons_of_mem _ hv)
      simp only [joinSpace]
      rw [splitSpace_append_space t _ ht, ih (by simp) hrest]

theorem Split_ne_nil (s : String) : Split s ≠ [] := by
  simp [Split, splitSpace_ne_nil]

theorem Split_Join (ts : List String) (hne : ts ≠ [])
    (h : ∀ t ∈ ts, ' ' ∉ t.data) : Split (Join ts) = ts := by
  have h1 : splitSpace (joinSpace (ts.map String.data)) = ts.map String.data := by
    apply splitSpace_joinSpace
    · simpa using hne
    · intro t ht
      obtain ⟨s, hs, rfl⟩ := List.mem_map.1 ht
      exact h s hs
  simp only [Split, Join, h1, List.map_map]
  exact (List.map_congr_left (fun t _ => rfl)).trans (List.map_id ts)

end strings

/-! ## The palette map as an indexed list of names -/

theorem two_step_induction {α : Type} {P : List α → Prop} (h0 : P [])
    (h1 : ∀ a, P [a]) (h2 : ∀ a b r, P r → P (a :: b :: r)) : ∀ l, P l
  | [] => h0
  | [a] => h1 a
  | a :: b :: r => h2 a b r (two_step_induction h0 h1 h2 r)

theorem lookup_zip_range' (ks : List String) (s : Nat) (c : String) :
    (ks.zip (List.range' s ks.length)).lookup c
      = if c ∈ ks then some (s + ks.indexOf c) else none := by
  induction ks generalizing s with
  | nil => simp
  | cons k ks ih =>
    simp only [List.length_cons, List.range'_succ, List.zip_cons_cons, List.lookup_cons]
    by_cases hck : c = k
    · subst hck
      simp
    · have hb : (c == k) = false := by simpa using hck
      have hkc : k ≠ c := fun e => hck e.symm
      rw [hb, ih (s + 1)]
      simp only [List.mem_cons, hck, false_or, List.indexOf_cons_ne _ hkc]
      split
      · simp only [Option.some.injEq]
        omega
      · rfl

theorem lookup_indexed (ks : List String) (c : String) :
    (indexed ks).lookup c = if c ∈ ks then some (ks.indexOf c) else none := by
  have h := lookup_zip_range' ks 0 c
  simpa [indexed, List.range_eq_range'] using h

theorem length_indexed (ks : List String) : (indexed ks).length = ks.length := by
  simp [indexed]

theorem keys_indexed (ks : List String) : (indexed ks).map Prod.fst = ks := by
  simp [indexed, List.map_fst_zip]

theorem indexed_concat (ks : List String) (n : String) :
    indexed (ks ++ [n]) = indexed ks ++ [(n, ks.length)] := by
  simp only [indexed, List.length_append, List.length_singleton, List.range_succ]
  rw [List.zip_append (by simp)]
  simp

theorem track_indexed (ks : List String) (n : String) :
    track (indexed ks) n = indexed (if n ∈ ks then ks else ks ++ [n]) := by
  unfold track
  rw [lookup_indexed]
  by_cases h : n ∈ ks
  · simp [h]
  · simp [h, indexed_concat, length_indexed]

theorem trackedIndex_indexed (ks : List String) (c : String) (h : c ∈ ks) :
    trackedIndex (indexed ks) c = ks.indexOf c := by
  simp [trackedIndex, lookup_indexed, h]

theorem initial_eq_indexed :
    Globals.initial = { pattern := [], colorTracking := indexed ["white", "black"] } := by
  rfl

/-! ## Names in first-seen order -/

theorem keysAfter_cons (ks : List String) (n : String) (ns : List String) :
    keysAfter ks (n :: ns) = keysAfter (if n ∈ ks then ks else ks ++ [n]) ns := by
  rfl

theorem keysAfter_prefix (ks ns : List String) : ∃ extra, keysAfter ks ns = ks ++ extra := by
  induction ns generalizing ks with
  | nil => exact ⟨[], by simp [keysAfter]⟩
  | cons n ns ih =>
    rw [keysAfter_cons]
    by_cases h : n ∈ ks
    · simpa [h] using ih ks
    · obtain ⟨e, he⟩ := ih (ks ++ [n])
      exact ⟨n :: e, by simp [h, he]⟩

theorem mem_keysAfter (ks ns : List String) (c : String) :
    c ∈ keysAfter ks ns ↔ c ∈ ks ∨ c ∈ ns := by
  induction ns generalizing ks with
  | nil => simp [keysAfter]
  | cons n ns ih =>
    rw [keysAfter_cons, ih]
    by_cases h : n ∈ ks
    · simp only [h, if_true, List.mem_cons]
      constructor
      · rintro (h1 | h1)
        · exact Or.inl h1
        · exact Or.inr (Or.inr h1)
      · rintro (h1 | h1 | h1)
        · exact Or.inl h1
        · exact Or.inl (h1 ▸ h)
        · exact Or.inr h1
    · simp only [h, if_false, List.mem_append, List.mem_singleton, List.mem_cons]
      tauto

theorem nodup_keysAfter (ks ns : List String) (hk : ks.Nodup) : (keysAfter ks ns).Nodup := by
  induction ns generalizing ks with
  | nil => simpa [keysAfter] using hk
  | cons n ns ih =>
    rw [keysAfter_cons]
    by_cases h : n ∈ ks
    · simpa [h] using ih ks hk
    · simp only [h, if_false]
      apply ih
      rw [List.nodup_append]
      refine ⟨hk, by simp, ?_⟩
      intro a ha hb
      rw [List.mem_singleton] at hb
      exact h (hb ▸ ha)

theorem indexOf_keysAfter_of_mem (ks ns : List String) (c : String) (h : c ∈ ks) :
    (keysAfter ks ns).indexOf c = ks.indexOf c := by
  obtain ⟨e, he⟩ := keysAfter_prefix ks ns
  rw [he, List.indexOf_append_of_mem h]

theorem length_le_indexOf_keysAfter (ks ns : List String) (c : String) (h : c ∉ ks) :
    ks.length ≤ (keysAfter ks ns).indexOf c := by
  obtain ⟨e, he⟩ := keysAfter_prefix ks ns
  rw [he, List.indexOf_append_of_not_mem h]
  omega

theorem indexOf_keysAfter_new (ks ns : List String) (c : String) (h : c ∉ ks) :
    (keysAfter (ks ++ [c]) ns).indexOf c = ks.length := by
  rw [indexOf_keysAfter_of_mem _ _ _ (by simp), List.indexOf_append_of_not_mem h]
  simp

theorem indexOf_keysAfter_lt_iff (ks ns : List String) (a b : String)
    (ha : a ∈ ns) (hb : b ∈ ns) (hak : a ∉ ks) (hbk : b ∉ ks) :
    (keysAfter ks ns).indexOf a < (keysAfter ks ns).indexOf b
      ↔ ns.indexOf a < ns.indexOf b := by
  induction ns generalizing ks with
  | nil => simp at ha
  | cons n ns ih =>
    rw [keysAfter_cons]
    by_cases han : a = n
    · subst han
      simp only [hak, if_false, List.indexOf_cons_self]
      rw [indexOf_keysAfter_new ks ns a hak]
      by_cases hba : b = a
      · subst hba
        simp [indexOf_keysAfter_new ks ns b hak]
      · have hb' : b ∉ ks ++ [a] := by simp [hbk, hba]
        have h1 := length_le_indexOf_keysAfter (ks ++ [a]) ns b hb'
        have hab : a ≠ b := fun e => hba e.symm
        rw [List.indexOf_cons_ne _ hab]
        simp only [List.length_append, List.length_singleton] at h1
        constructor
        · intro _; omega
        · intro _; omega
    · have hna : n ≠ a := fun e => han e.symm
      have ha' : a ∈ ns := by
        rcases List.mem_cons.1 ha with h | h
        · exact absurd h han
        · exact h
      by_cases hbn : b = n
      · subst hbn
        simp only [hbk, if_false, List.indexOf_cons_self]
        rw [indexOf_keysAfter_new ks ns b hbk]
        have ha2 : a ∉ ks ++ [b] := by simp [hak, han]
        have h1 := length_le_indexOf_keysAfter (ks ++ [b]) ns a ha2
        simp only [List.length_append, List.length_singleton] at h1
        constructor
        · intro _; omega
        · intro h; omega
      · have hnb : n ≠ b := fun e => hbn e.symm
        have hb' : b ∈ ns := by
          rcases List.mem_cons.1 hb with h | h
          · exact absurd h hbn
          · exact h
        rw [List.indexOf_cons_ne _ hna, List.indexOf_cons_ne _ hnb]
        have key : ∀ ks', a ∉ ks' → b ∉ ks' →
            ((keysAfter ks' ns).indexOf a < (keysAfter ks' ns).indexOf b
              ↔ ns.indexOf a < ns.indexOf b) := fun ks' h1 h2 => ih ks' ha' hb' h1 h2
        by_cases hn : n ∈ ks
        · simp only [hn, if_true]
          rw [key ks hak hbk]
          omega
        · simp only [hn, if_false]
          rw [key (ks ++ [n]) (by simp [hak, han]) (by simp [hbk, hbn])]
          omega

/-! ## The parsing loop -/

theorem loopBody_indexed (pat : List schedule) (ks : List String) (name text : String) :
    loopBody { pattern := pat, colorTracking := indexed ks } name text
      = { pattern := pat ++ [{ color := (keysAfter ks [name]).indexOf name % 256,
                               duration := (strconv.Atoi text).1 }],
          colorTracking := indexed (keysAfter ks [name]) } := by
  have hk : keysAfter ks [name] = if name ∈ ks then ks else ks ++ [name] := rfl
  have hm : name ∈ keysAfter ks [name] := by simp [mem_keysAfter]
  simp only [loopBody, track_indexed, ← hk, trackedIndex_indexed _ _ hm]

theorem parseLoop_even (toks : List String) :
    toks.length % 2 = 0 → ∀ (len i : Nat) (pat : List schedule) (ks : List String),
      parseLoop len i toks { pattern := pat, colorTracking := indexed ks }
        = Except.ok
            { pattern := pat ++ (tokenPairs toks).map (frameOf (keysAfter ks (colourNames toks))),
              colorTracking := indexed (keysAfter ks (colourNames toks)) } := by
  induction toks using two_step_induction with
  | h0 => intro _ len i pat ks; simp [parseLoop, tokenPairs, colourNames, keysAfter]
  | h1 a => intro h; simp at h
  | h2 a b r ih =>
    intro h len i pat ks
    have hr : r.length % 2 = 0 := by
      simp only [List.length_cons] at h
      omega
    have hk : keysAfter ks (a :: colourNames r) = keysAfter (keysAfter ks [a]) (colourNames r) := rfl
    have hm : a ∈ keysAfter ks [a] := by simp [mem_keysAfter]
    simp only [parseLoop, loopBody_indexed, ih hr, tokenPairs, colourNames, List.map_cons, hk,
      frameOf, indexOf_keysAfter_of_mem _ _ _ hm, List.append_assoc, List.singleton_append]

theorem parseLoop_odd (toks : List String) :
    toks.length % 2 = 1 → ∀ (len i : Nat) (g : Globals),
      parseLoop len i toks g
        = Except.error (RuntimePanic.indexOutOfRange (i + toks.length) len) := by
  induction toks using two_step_induction with
  | h0 => intro h; simp at h
  | h1 a => intro _ len i g; simp [parseLoop]
  | h2 a b r ih =>
    intro h len i g
    have hr : r.length % 2 = 1 := by
      simp only [List.length_cons] at h
      omega
    simp only [parseLoop, ih hr, List.length_cons]
    congr 2
    omega

theorem parsePattern_even (input : String) (h : (strings.Split input).length % 2 = 0) :
    parsePattern input
      = Except.ok
          { pattern := (tokenPairs (strings.Split input)).map
              (frameOf (keysAfter ["white", "black"] (colourNames (strings.Split input)))),
            colorTracking :=
              indexed (keysAfter ["white", "black"] (colourNames (strings.Split input))) } := by
  unfold parsePattern
  simp only [initial_eq_indexed]
  rw [parseLoop_even _ h]
  simp

theorem parsePattern_odd (input : String) (h : (strings.Split input).length % 2 = 1) :
    parsePattern input
      = Except.error (RuntimePanic.indexOutOfRange (strings.Split input).length
          (strings.Split input).length) := by
  unfold parsePattern
  simp only []
  rw [parseLoop_odd _ h]
  simp

theorem length_tokenPairs (toks : List String) :
    (tokenPairs toks).length = toks.length / 2 := by
  induction toks using two_step_induction with
  | h0 => simp [tokenPairs]
  | h1 a => simp [tokenPairs]
  | h2 a b r ih =>
    simp only [tokenPairs, List.length_cons, ih]
    omega

theorem tokenPairs_getElem? (toks : List String) (k : Nat) (p : String × String) :
    (tokenPairs toks)[k]? = some p ↔ toks[2 * k]? = some p.1 ∧ toks[2 * k + 1]? = some p.2 := by
  induction toks using two_step_induction generalizing k with
  | h0 => simp [tokenPairs]
  | h1 a =>
    cases k with
    | zero => simp [tokenPairs]
    | succ k =>
      have e1 : 2 * (k + 1) = (2 * k + 1) + 1 := by omega
      simp [tokenPairs, e1]
  | h2 a b r ih =>
    cases k with
    | zero =>
      simp only [tokenPairs, List.getElem?_cons_zero, Option.some.injEq, Nat.mul_zero,
        Nat.zero_add, List.getElem?_cons_succ]
      constructor
      · rintro rfl; exact ⟨rfl, rfl⟩
      · rintro ⟨h1, h2⟩; exact Prod.ext h1 h2
    | succ k =>
      have e1 : 2 * (k + 1) = (2 * k + 1) + 1 := by omega
      have e2 : 2 * (k + 1) + 1 = ((2 * k + 1) + 1) + 1 := by omega
      simp only [tokenPairs, List.getElem?_cons_succ, e1, ih]

theorem colourNames_getElem? (toks : List String) (k : Nat) :
    (colourNames toks)[k]? = toks[2 * k]? := by
  induction toks using two_step_induction generalizing k with
  | h0 => simp [colourNames]
  | h1 a =>
    cases k with
    | zero => simp [colourNames]
    | succ k =>
      have e1 : 2 * (k + 1) = (2 * k + 1) + 1 := by omega
      simp [colourNames, e1]
  | h2 a b r ih =>
    cases k with
    | zero => simp [colourNames]
    | succ k =>
      have e1 : 2 * (k + 1) = (2 * k + 1) + 1 := by omega
      simp only [colourNames, List.getElem?_cons_succ, e1, ih]

/-! ## The palette loop -/

theorem palette_inner_foldl (m : List (String × Nat)) (i : Nat) (l : List String)
    (pal : List (Option color.Color)) :
    l.foldl (fun palette c => if i = trackedIndex m c then palette ++ [colors c] else palette) pal
      = pal ++ (l.filter (fun c => decide (i = trackedIndex m c))).map colors := by
  induction l generalizing pal with
  | nil => simp
  | cons c l ih =>
    simp only [List.foldl_cons, ih, List.filter_cons]
    by_cases h : i = trackedIndex m c
    · simp [h]
    · simp [h]

theorem filter_index_eq (ks : List String) (hk : ks.Nodup) (i : Nat) (hi : i < ks.length) :
    ks.filter (fun c => decide (i = trackedIndex (indexed ks) c)) = [ks[i]] := by
  have h1 : ks.filter (fun c => decide (i = trackedIndex (indexed ks) c))
      = ks.filter (fun c => decide (c = ks[i])) := by
    apply List.filter_congr
    intro c hc
    rw [trackedIndex_indexed ks c hc]
    have hlt : ks.indexOf c < ks.length := List.indexOf_lt_length.2 hc
    by_cases h : c = ks[i]
    · have h2 : ks.indexOf c = i := by
        rw [h]
        exact List.indexOf_getElem hk i hi
      rw [h2]
      simp [h]
    · have h2 : i ≠ ks.indexOf c := by
        intro e
        apply h
        subst e
        exact (List.indexOf_get hlt).symm
      simp [h, h2]
  rw [h1, List.filter_eq, List.count_eq_one_of_mem hk (List.getElem_mem hi)]
  rfl

theorem palette_row (ks : List String) (hk : ks.Nodup) (order : Nat → List String)
    (ho : ∀ i, (order i).Perm ks) (i : Nat) (hi : i < ks.length)
    (pal : List (Option color.Color)) :
    (order i).foldl
        (fun palette c =>
          if i = trackedIndex (indexed ks) c then palette ++ [colors c] else palette) pal
      = pal ++ [colors ks[i]] := by
  rw [palette_inner_foldl]
  have hp := (ho i).filter (fun c => decide (i = trackedIndex (indexed ks) c))
  rw [filter_index_eq ks hk i hi] at hp
  rw [List.perm_singleton.1 hp]
  rfl

theorem palette_outer_foldl (ks : List String) (hk : ks.Nodup) (order : Nat → List String)
    (ho : ∀ i, (order i).Perm ks) (n : Nat) (hn : n ≤ ks.length) :
    (List.range n).foldl
        (fun palette i =>
          (order i).foldl
            (fun palette c =>
              if i = trackedIndex (indexed ks) c then palette ++ [colors c] else palette)
            palette)
        []
      = (ks.take n).map colors := by
  induction n with
  | zero => simp
  | succ n ih =>
    have hlt : n < ks.length := by omega
    rw [List.range_succ, List.foldl_append, ih (by omega)]
    simp only [List.foldl_cons, List.foldl_nil]
    rw [palette_row ks hk order ho n hlt, List.take_succ, List.getElem?_eq_getElem hlt]
    simp only [Option.toList, List.map_append, List.map_cons, List.map_nil]

theorem buildPalette_indexed (ks : List String) (hk : ks.Nodup) (order : Nat → List String)
    (ho : ∀ i, (order i).Perm ks) :
    buildPalette (indexed ks) order = ks.map colors := by
  unfold buildPalette
  rw [length_indexed, palette_outer_foldl ks hk order ho ks.length (Nat.le_refl _)]
  simp

/-! ## The animation record -/

theorem start_foldl (pattern : List schedule) (im : image.Paletted)
    (acc : List image.Paletted × List Int) :
    pattern.foldl (fun acc s => (acc.1 ++ [im], acc.2 ++ [s.duration])) acc
      = (acc.1 ++ List.replicate pattern.length im, acc.2 ++ pattern.map (fun s => s.duration)) := by
  induction pattern generalizing acc with
  | nil => simp
  | cons s rest ih =>
    simp only [List.foldl_cons, ih, List.length_cons, List.map_cons, List.replicate_succ,
      List.append_assoc, List.singleton_append]

theorem length_paintPixel (pattern : List schedule) (size radius : Int)
    (images : List image.Paletted) (x y : Int) (h : images.length = pattern.length) :
    (paintPixel pattern size radius images x y).length = pattern.length := by
  unfold paintPixel
  simp only []
  split
  · exact h
  · split
    · simpa using h
    · simp [List.length_zipWith, h]

theorem length_foldl_paintPixel (pattern : List schedule) (size radius x : Int) (ys : List Int)
    (images : List image.Paletted) (h : images.length = pattern.length) :
    (ys.foldl (fun images y => paintPixel pattern size radius images x y) images).length
      = pattern.length := by
  induction ys generalizing images with
  | nil => simpa using h
  | cons y ys ih =>
    simp only [List.foldl_cons]
    exact ih _ (length_paintPixel pattern size radius images x y h)

theorem length_foldl_foldl_paintPixel (pattern : List schedule) (size radius : Int)
    (xs ys : List Int) (images : List image.Paletted) (h : images.length = pattern.length) :
    (xs.foldl
        (fun images x => ys.foldl (fun images y => paintPixel pattern size radius images x y) images)
        images).length
      = pattern.length := by
  induction xs generalizing images with
  | nil => simpa using h
  | cons x xs ih =>
    simp only [List.foldl_cons]
    exact ih _ (length_foldl_paintPixel pattern size radius x ys images h)

theorem buildAnimation_Delay (g : Globals) (size margin : Int) (order : Nat → List String) :
    (buildAnimation g size margin order).Delay = g.pattern.map (fun s => s.duration) := by
  simp [buildAnimation, start_foldl]

theorem buildAnimation_LoopCount (g : Globals) (size margin : Int) (order : Nat → List String) :
    (buildAnimation g size margin order).LoopCount = 0 := by
  simp [buildAnimation]

theorem buildAnimation_Image_length (g : Globals) (size margin : Int)
    (order : Nat → List String) :
    (buildAnimation g size margin order).Image.length = g.pattern.length := by
  simp only [buildAnimation, start_foldl]
  apply length_foldl_foldl_paintPixel
  simp

theorem Palette_SetColorIndex (im : image.Paletted) (x y : Int) (index : Nat) :
    (im.SetColorIndex x y index).Palette = im.Palette := by
  unfold image.Paletted.SetColorIndex
  split <;> rfl

theorem Palette_zipWith (pal : List (Option color.Color)) (x y : Int)
    (images : List image.Paletted) (pattern : List schedule)
    (h : ∀ im ∈ images, im.Palette = pal) :
    ∀ im ∈ List.zipWith (fun im (s : schedule) => im.SetColorIndex x y s.color) images pattern,
      im.Palette = pal := by
  induction images generalizing pattern with
  | nil => simp
  | cons a rest ih =>
    cases pattern with
    | nil => simp
    | cons s ss =>
      intro im him
      simp only [List.zipWith_cons_cons, List.mem_cons] at him
      rcases him with him | him
      · rw [him, Palette_SetColorIndex]
        exact h a (by simp)
      · exact ih ss (fun im' h' => h im' (List.mem_cons_of_mem _ h')) im him

theorem Palette_paintPixel (pal : List (Option color.Color)) (pattern : List schedule)
    (size radius : Int) (images : List image.Paletted) (x y : Int)
    (h : ∀ im ∈ images, im.Palette = pal) :
    ∀ im ∈ paintPixel pattern size radius images x y, im.Palette = pal := by
  unfold paintPixel
  simp only []
  split
  · exact h
  · split
    · intro im him
      obtain ⟨a, ha, rfl⟩ := List.mem_map.1 him
      rw [Palette_SetColorIndex]
      exact h a ha
    · exact Palette_zipWith pal x y images pattern h

theorem Palette_foldl_paintPixel (pal : List (Option color.Color)) (pattern : List schedule)
    (size radius x : Int) (ys : List Int) (images : List image.Paletted)
    (h : ∀ im ∈ images, im.Palette = pal) :
    ∀ im ∈ ys.foldl (fun images y => paintPixel pattern size radius images x y) images,
      im.Palette = pal := by
  induction ys generalizing images with
  | nil => simpa using h
  | cons y ys ih =>
    simp only [List.foldl_cons]
    exact ih _ (Palette_paintPixel pal pattern size radius images x y h)

theorem Palette_foldl_foldl_paintPixel (pal : List (Option color.Color))
    (pattern : List schedule) (size radius : Int) (xs ys : List Int)
    (images : List image.Paletted) (h : ∀ im ∈ images, im.Palette = pal) :
    ∀ im ∈ xs.foldl
        (fun images x => ys.foldl (fun images y => paintPixel pattern size radius images x y) images)
        images,
      im.Palette = pal := by
  induction xs generalizing images with
  | nil => simpa using h
  | cons x xs ih =>
    simp only [List.foldl_cons]
    exact ih _ (Palette_foldl_paintPixel pal pattern size radius x ys images h)

theorem buildAnimation_Palette (g : Globals) (size margin : Int) (order : Nat → List String) :
    ∀ im ∈ (buildAnimation g size margin order).Image,
      im.Palette = buildPalette g.colorTracking order := by
  simp only [buildAnimation, start_foldl]
  apply Palette_foldl_foldl_paintPixel
  intro im him
  simp only [List.nil_append] at him
  rw [List.eq_of_mem_replicate him]
  rfl

/-! ## `strconv.Atoi` -/

namespace strconv

theorem two_pow_64 : (2 : Nat) ^ 64 = 18446744073709551616 := by
  norm_num

theorem maxUint64_eq : maxUint64 = 18446744073709551615 := by
  norm_num [maxUint64]

theorem digitValue_of_digit (c : Char) (h : isDecimalDigit c = true) :
    digitValue c = some (c.toNat - 48) ∧ c.toNat - 48 < 10 := by
  simp only [isDecimalDigit, decide_eq_true_eq] at h
  refine ⟨by simp [digitValue, h], by omega⟩

theorem parseUintLoop_of_not_digit (c : Char) (rest : List Char) (n : Nat)
    (h : isDecimalDigit c = false) :
    parseUintLoop (c :: rest) n = (0, some NumError.ErrSyntax) := by
  simp only [isDecimalDigit, decide_eq_false_iff_not] at h
  unfold parseUintLoop digitValue
  rw [if_neg h]
  split
  · rfl
  · rename_i d hd
    split at hd
    · simp only [Option.some.injEq] at hd
      have : 10 ≤ d := by omega
      simp [this]
    · cases hd

theorem le_foldl_digits (ds : List Char) (n : Nat) :
    n ≤ ds.foldl (fun n c => n * 10 + (c.toNat - 48)) n := by
  induction ds generalizing n with
  | nil => simp
  | cons c cs ih =>
    simp only [List.foldl_cons]
    exact Nat.le_trans (by omega) (ih _)

theorem parseUintLoop_cons_digit (c : Char) (cs : List Char) (n : Nat)
    (hc : isDecimalDigit c = true) (hn : n < 2 ^ 64) :
    parseUintLoop (c :: cs) n
      = if n * 10 + (c.toNat - 48) < 2 ^ 64 then parseUintLoop cs (n * 10 + (c.toNat - 48))
        else (maxUint64, some NumError.ErrRange) := by
  obtain ⟨hv, hlt⟩ := digitValue_of_digit c hc
  rw [parseUintLoop, hv]
  simp only [two_pow_64, maxUint64_eq] at *
  rw [if_neg (by omega)]
  by_cases hcut : 18446744073709551615 / 10 + 1 ≤ n
  · rw [if_pos hcut, if_neg (by omega)]
  · rw [if_neg hcut]
    have e1 : n * 10 % 18446744073709551616 = n * 10 := Nat.mod_eq_of_lt (by omega)
    simp only [e1]
    by_cases hover : n * 10 + (c.toNat - 48) < 18446744073709551616
    · have e2 : (n * 10 + (c.toNat - 48)) % 18446744073709551616 = n * 10 + (c.toNat - 48) :=
        Nat.mod_eq_of_lt hover
      simp only [e2]
      rw [if_neg (by omega), if_pos hover]
    · rw [if_pos (by omega), if_neg hover]

theorem parseUintLoop_digits (ds rest : List Char) (n : Nat)
    (hd : ∀ c ∈ ds, isDecimalDigit c = true) (hn : n < 2 ^ 64) :
    parseUintLoop (ds ++ rest) n
      = if ds.foldl (fun n c => n * 10 + (c.toNat - 48)) n < 2 ^ 64
        then parseUintLoop rest (ds.foldl (fun n c => n * 10 + (c.toNat - 48)) n)
        else (maxUint64, some NumError.ErrRange) := by
  induction ds generalizing n with
  | nil => simp only [List.foldl_nil, List.nil_append, if_pos hn]
  | cons c cs ih =>
    have hcs : ∀ c ∈ cs, isDecimalDigit c = true := fun x hx => hd x (List.mem_cons_of_mem _ hx)
    have hmono := le_foldl_digits cs (n * 10 + (c.toNat - 48))
    simp only [List.cons_append, List.foldl_cons]
    rw [parseUintLoop_cons_digit c _ n (hd c (by simp)) hn]
    by_cases hover : n * 10 + (c.toNat - 48) < 2 ^ 64
    · rw [if_pos hover]
      exact ih _ hcs hover
    · rw [if_neg hover, if_neg (by omega)]

theorem decimalValue_eq (ds : List Char) :
    decimalValue ds = ds.foldl (fun n c => n * 10 + (c.toNat - 48)) 0 := rfl

theorem ParseUint_digits (ds : List Char) (hne : ds ≠ [])
    (hd : ∀ c ∈ ds, isDecimalDigit c = true) :
    ParseUint ds
      = if decimalValue ds < 2 ^ 64 then (decimalValue ds, none)
        else (maxUint64, some NumError.ErrRange) := by
  have h := parseUintLoop_digits ds [] 0 hd (by norm_num)
  cases ds with
  | nil => exact absurd rfl hne
  | cons c cs =>
    rw [List.append_nil] at h
    rw [decimalValue_eq, ParseUint, h]
    rfl

theorem ParseUint_not_number (ds : List Char) (c : Char) (rest : List Char)
    (hd : ∀ c ∈ ds, isDecimalDigit c = true) (hc : isDecimalDigit c = false)
    (hv : decimalValue ds < 2 ^ 64) :
    ParseUint (ds ++ c :: rest) = (0, some NumError.ErrSyntax) := by
  have h := parseUintLoop_digits ds (c :: rest) 0 hd (by norm_num)
  rw [← decimalValue_eq, if_pos hv, parseUintLoop_of_not_digit c rest _ hc] at h
  cases ds with
  | nil => exact h
  | cons d ds => exact h

end strconv

namespace strconv

theorem ne_sign_of_digit (c : Char) (h : isDecimalDigit c = true) : c ≠ '+' ∧ c ≠ '-' := by
  constructor <;> (intro e; subst e; revert h; decide)

theorem toInt64_of_lt (v : Nat) (h : v < 2 ^ 63) : toInt64 v = (v : Int) := by
  have h1 : v % 2 ^ 64 = v := Nat.mod_eq_of_lt (by omega)
  unfold toInt64
  rw [h1, if_pos h]

theorem negInt64_toInt64 (v : Nat) (h : v ≤ 2 ^ 63) : negInt64 (toInt64 v) = -(v : Int) := by
  by_cases hlt : v < 2 ^ 63
  · rw [toInt64_of_lt v hlt]
    unfold negInt64
    rw [if_neg (by omega)]
  · have hv : v = 2 ^ 63 := by omega
    subst hv
    decide

theorem ParseInt_cons_digit (c : Char) (rest : List Char) (hc : isDecimalDigit c = true) :
    ParseInt (c :: rest)
      = if (ParseUint (c :: rest)).2 = some NumError.ErrSyntax
        then (0, (ParseUint (c :: rest)).2)
        else if 2 ^ 63 ≤ (ParseUint (c :: rest)).1 then (2 ^ 63 - 1, some NumError.ErrRange)
        else (toInt64 (ParseUint (c :: rest)).1, none) := by
  obtain ⟨h1, h2⟩ := ne_sign_of_digit c hc
  simp [ParseInt, h1, h2, intSize]

theorem ParseInt_plus (rest : List Char) :
    ParseInt ('+' :: rest)
      = if (ParseUint rest).2 = some NumError.ErrSyntax
        then (0, (ParseUint rest).2)
        else if 2 ^ 63 ≤ (ParseUint rest).1 then (2 ^ 63 - 1, some NumError.ErrRange)
        else (toInt64 (ParseUint rest).1, none) := by
  simp [ParseInt, intSize]

theorem ParseInt_minus (rest : List Char) :
    ParseInt ('-' :: rest)
      = if (ParseUint rest).2 = some NumError.ErrSyntax
        then (0, (ParseUint rest).2)
        else if 2 ^ 63 < (ParseUint rest).1 then (-(2 ^ 63), some NumError.ErrRange)
        else (negInt64 (toInt64 (ParseUint rest).1), none) := by
  simp [ParseInt, intSize]

theorem ParseInt_of_not_digit_or_sign (c : Char) (rest : List Char)
    (hc : isDecimalDigit c = false) (hp : c ≠ '+') (hm : c ≠ '-') :
    ParseInt (c :: rest) = (0, some NumError.ErrSyntax) := by
  have h := ParseUint_not_number [] c rest (by simp) hc (by decide)
  simp only [List.nil_append] at h
  simp [ParseInt, hp, hm, h]

/-- The value of `ParseUint` on a non-empty digit string, clamped. -/
theorem ParseUint_digits_fst (ds : List Char) (hne : ds ≠ [])
    (hd : ∀ c ∈ ds, isDecimalDigit c = true) :
    (ParseUint ds).2 ≠ some NumError.ErrSyntax ∧
      (decimalValue ds < 2 ^ 64 → (ParseUint ds).1 = decimalValue ds) ∧
      (2 ^ 64 ≤ decimalValue ds → (ParseUint ds).1 = 2 ^ 64 - 1) := by
  rw [ParseUint_digits ds hne hd]
  by_cases h : decimalValue ds < 2 ^ 64
  · rw [if_pos h]
    exact ⟨by simp, fun _ => rfl, fun h2 => absurd h (by omega)⟩
  · rw [if_neg h]
    exact ⟨by decide, fun h2 => absurd h2 h, fun _ => rfl⟩

theorem value_digits (ds : List Char) (hne : ds ≠ [])
    (hd : ∀ c ∈ ds, isDecimalDigit c = true) :
    (ParseInt ds).1
      = if decimalValue ds < 2 ^ 63 then (decimalValue ds : Int) else 2 ^ 63 - 1 := by
  obtain ⟨h1, h2, h3⟩ := ParseUint_digits_fst ds hne hd
  cases ds with
  | nil => exact absurd rfl hne
  | cons c cs =>
    rw [ParseInt_cons_digit c cs (hd c (by simp)), if_neg h1]
    by_cases hv : decimalValue (c :: cs) < 2 ^ 63
    · rw [if_pos hv, h2 (by omega), if_neg (by omega), toInt64_of_lt _ hv]
    · rw [if_neg hv]
      have : 2 ^ 63 ≤ (ParseUint (c :: cs)).1 := by
        by_cases h64 : decimalValue (c :: cs) < 2 ^ 64
        · rw [h2 h64]; omega
        · rw [h3 (by omega)]; norm_num
      rw [if_pos this]

theorem value_plus_digits (ds : List Char) (hne : ds ≠ [])
    (hd : ∀ c ∈ ds, isDecimalDigit c = true) :
    (ParseInt ('+' :: ds)).1
      = if decimalValue ds < 2 ^ 63 then (decimalValue ds : Int) else 2 ^ 63 - 1 := by
  obtain ⟨h1, h2, h3⟩ := ParseUint_digits_fst ds hne hd
  rw [ParseInt_plus, if_neg h1]
  by_cases hv : decimalValue ds < 2 ^ 63
  · rw [if_pos hv, h2 (by omega), if_neg (by omega), toInt64_of_lt _ hv]
  · rw [if_neg hv]
    have : 2 ^ 63 ≤ (ParseUint ds).1 := by
      by_cases h64 : decimalValue ds < 2 ^ 64
      · rw [h2 h64]; omega
      · rw [h3 (by omega)]; norm_num
    rw [if_pos this]

theorem value_minus_digits (ds : List Char) (hne : ds ≠ [])
    (hd : ∀ c ∈ ds, isDecimalDigit c = true) :
    (ParseInt ('-' :: ds)).1
      = if decimalValue ds ≤ 2 ^ 63 then -(decimalValue ds : Int) else -(2 ^ 63) := by
  obtain ⟨h1, h2, h3⟩ := ParseUint_digits_fst ds hne hd
  rw [ParseInt_minus, if_neg h1]
  by_cases hv : decimalValue ds ≤ 2 ^ 63
  · rw [if_pos hv, h2 (by omega), if_neg (by omega), negInt64_toInt64 _ hv]
  · rw [if_neg hv]
    have : 2 ^ 63 < (ParseUint ds).1 := by
      by_cases h64 : decimalValue ds < 2 ^ 64
      · rw [h2 h64]; omega
      · rw [h3 (by omega)]; norm_num
    rw [if_pos this]

theorem value_not_number (sign ds : List Char) (c : Char) (rest : List Char)
    (hs : sign = [] ∨ sign = ['+'] ∨ sign = ['-'])
    (hd : ∀ c ∈ ds, isDecimalDigit c = true) (hc : isDecimalDigit c = false)
    (hsign : sign = [] → ds = [] → c ≠ '+' ∧ c ≠ '-')
    (hv : decimalValue ds < 2 ^ 64) :
    (ParseInt (sign ++ ds ++ c :: rest)).1 = 0 := by
  have hu := ParseUint_not_number ds c rest hd hc hv
  rcases hs with rfl | rfl | rfl
  · cases ds with
    | nil =>
      obtain ⟨hp, hm⟩ := hsign rfl rfl
      simp only [List.nil_append]
      rw [ParseInt_of_not_digit_or_sign c rest hc hp hm]
    | cons d ds =>
      simp only [List.nil_append, List.cons_append] at hu ⊢
      rw [ParseInt_cons_digit d _ (hd d (by simp)), hu]
      simp
  · simp only [List.singleton_append, List.cons_append, List.append_assoc, List.nil_append]
    rw [ParseInt_plus, hu]
    simp
  · simp only [List.singleton_append, List.cons_append, List.append_assoc, List.nil_append]
    rw [ParseInt_minus, hu]
    simp

theorem value_lone_sign (sign : List Char) (hs : sign = [] ∨ sign = ['+'] ∨ sign = ['-']) :
    (ParseInt sign).1 = 0 := by
  rcases hs with rfl | rfl | rfl <;> decide

end strconv

/-! ## Pixels of one image -/

namespace image

theorem Rect_Dx_nonneg (x0 y0 x1 y1 : Int) : 0 ≤ (Rect x0 y0 x1 y1).Dx := by
  simp only [Rect, Rectangle.Dx]
  split <;> omega

theorem Rect_Dy_nonneg (x0 y0 x1 y1 : Int) : 0 ≤ (Rect x0 y0 x1 y1).Dy := by
  simp only [Rect, Rectangle.Dy]
  split <;> omega

theorem WellFormed_fresh (x0 y0 x1 y1 : Int) (p : List (Option color.Color)) :
    (Paletted.fresh (Rect x0 y0 x1 y1) p).WellFormed := by
  refine ⟨Rect_Dx_nonneg _ _ _ _, Rect_Dy_nonneg _ _ _ _, rfl, ?_⟩
  simp [Paletted.fresh]

theorem contains_iff (r : Rectangle) (x y : Int) :
    r.contains x y = true ↔ r.MinX ≤ x ∧ x < r.MaxX ∧ r.MinY ≤ y ∧ y < r.MaxY := by
  simp [Rectangle.contains]

theorem offset_bounds (p : Paletted) (hw : p.WellFormed) (x y : Int)
    (h : p.Rect.contains x y = true) :
    0 ≤ p.PixOffset x y ∧ p.PixOffset x y < p.Rect.Dx * p.Rect.Dy := by
  obtain ⟨h1, h2, h3, h4⟩ := (contains_iff _ _ _).1 h
  obtain ⟨_, _, hs, _⟩ := hw
  simp only [Paletted.PixOffset, hs, Rectangle.Dx, Rectangle.Dy] at *
  have ha : 0 ≤ y - p.Rect.MinY := by omega
  have hb : y - p.Rect.MinY + 1 ≤ p.Rect.MaxY - p.Rect.MinY := by omega
  have hc : 0 ≤ p.Rect.MaxX - p.Rect.MinX := by omega
  constructor
  · have := Int.mul_nonneg ha hc
    omega
  · have := Int.mul_le_mul_of_nonneg_right hb hc
    have e : (y - p.Rect.MinY + 1) * (p.Rect.MaxX - p.Rect.MinX)
        = (y - p.Rect.MinY) * (p.Rect.MaxX - p.Rect.MinX) + (p.Rect.MaxX - p.Rect.MinX) := by
      ring
    have e2 : (p.Rect.MaxX - p.Rect.MinX) * (p.Rect.MaxY - p.Rect.MinY)
        = (p.Rect.MaxY - p.Rect.MinY) * (p.Rect.MaxX - p.Rect.MinX) := by
      ring
    omega

theorem offset_inj (p : Paletted) (hw : p.WellFormed) (x y x' y' : Int)
    (h : p.Rect.contains x y = true) (h' : p.Rect.contains x' y' = true)
    (he : p.PixOffset x y = p.PixOffset x' y') : x = x' ∧ y = y' := by
  obtain ⟨h1, h2, h3, h4⟩ := (contains_iff _ _ _).1 h
  obtain ⟨k1, k2, k3, k4⟩ := (contains_iff _ _ _).1 h'
  obtain ⟨_, _, hs, _⟩ := hw
  simp only [Paletted.PixOffset, hs, Rectangle.Dx] at he
  have hwpos : 0 < p.Rect.MaxX - p.Rect.MinX := by omega
  have m1 : ((y - p.Rect.MinY) * (p.Rect.MaxX - p.Rect.MinX) + (x - p.Rect.MinX))
      % (p.Rect.MaxX - p.Rect.MinX) = x - p.Rect.MinX := by
    rw [Int.add_comm, Int.add_mul_emod_self]
    exact Int.emod_eq_of_lt (by omega) (by omega)
  have m2 : ((y' - p.Rect.MinY) * (p.Rect.MaxX - p.Rect.MinX) + (x' - p.Rect.MinX))
      % (p.Rect.MaxX - p.Rect.MinX) = x' - p.Rect.MinX := by
    rw [Int.add_comm, Int.add_mul_emod_self]
    exact Int.emod_eq_of_lt (by omega) (by omega)
  rw [he, m2] at m1
  have hx : x = x' := by omega
  subst hx
  have hy : (y - p.Rect.MinY) * (p.Rect.MaxX - p.Rect.MinX)
      = (y' - p.Rect.MinY) * (p.Rect.MaxX - p.Rect.MinX) := by omega
  have := Int.eq_of_mul_eq_mul_right (by omega) hy
  exact ⟨rfl, by omega⟩

theorem WellFormed_SetColorIndex (p : Paletted) (hw : p.WellFormed) (x y : Int) (v : Nat) :
    (p.SetColorIndex x y v).WellFormed := by
  unfold Paletted.SetColorIndex
  split
  · obtain ⟨h1, h2, h3, h4⟩ := hw
    exact ⟨h1, h2, h3, by simpa using h4⟩
  · exact hw

theorem Rect_SetColorIndex (p : Paletted) (x y : Int) (v : Nat) :
    (p.SetColorIndex x y v).Rect = p.Rect := by
  unfold Paletted.SetColorIndex
  split <;> rfl

theorem ColorIndexAt_SetColorIndex (p : Paletted) (hw : p.WellFormed) (x y : Int) (v : Nat)
    (qx qy : Int) :
    (p.SetColorIndex x y v).ColorIndexAt qx qy
      = if x = qx ∧ y = qy ∧ p.Rect.contains qx qy = true then v % 256
        else p.ColorIndexAt qx qy := by
  by_cases hp : p.Rect.contains x y = true
  · by_cases hq : p.Rect.contains qx qy = true
    · obtain ⟨o1, o2⟩ := offset_bounds p hw x y hp
      obtain ⟨q1, q2⟩ := offset_bounds p hw qx qy hq
      have hlen := hw.2.2.2
      by_cases hpq : x = qx ∧ y = qy
      · obtain ⟨rfl, rfl⟩ := hpq
        have hlt : (p.PixOffset x y).toNat < p.Pix.length := by
          rw [hlen]
          omega
        simp [Paletted.SetColorIndex, Paletted.ColorIndexAt, hp, Paletted.PixOffset,
          List.getElem?_set]
        simp only [Paletted.PixOffset] at hlt
        simp [hlt]
      · have hne : (p.PixOffset x y).toNat ≠ (p.PixOffset qx qy).toNat := by
          intro e
          have e' : p.PixOffset x y = p.PixOffset qx qy := by omega
          exact hpq (offset_inj p hw x y qx qy hp hq e')
        have hc : ¬ (x = qx ∧ y = qy ∧ p.Rect.contains qx qy = true) := fun h => hpq ⟨h.1, h.2.1⟩
        rw [if_neg hc]
        simp only [Paletted.SetColorIndex, Paletted.ColorIndexAt, hp, hq, if_true,
          List.getD_eq_getElem?_getD]
        have hne' : (Paletted.PixOffset
            { Pix := p.Pix.set (p.PixOffset x y).toNat (v % 256), Stride := p.Stride,
              Rect := p.Rect, Palette := p.Palette } qx qy).toNat
            = (p.PixOffset qx qy).toNat := rfl
        rw [hne', List.getElem?_set_ne hne]
    · have hc : ¬ (x = qx ∧ y = qy ∧ p.Rect.contains qx qy = true) := fun h => hq h.2.2
      rw [if_neg hc]
      simp [Paletted.ColorIndexAt, Rect_SetColorIndex, hq]
  · have hc : ¬ (x = qx ∧ y = qy ∧ p.Rect.contains qx qy = true) := by
      rintro ⟨rfl, rfl, h⟩
      exact hp h
    rw [if_neg hc]
    simp [Paletted.SetColorIndex, hp]

theorem ColorIndexAt_fresh (r : Rectangle) (pal : List (Option color.Color))
    (x y : Int) : (Paletted.fresh r pal).ColorIndexAt x y = 0 := by
  unfold Paletted.ColorIndexAt
  split
  · simp only [Paletted.fresh, List.getD_eq_getElem?_getD, List.getElem?_replicate]
    split <;> rfl
  · rfl

end image

/-! ## The pixel loops, frame by frame -/

theorem WellFormed_paintOne (size radius : Int) (c : Nat) (im : image.Paletted)
    (hw : im.WellFormed) (x y : Int) : (paintOne size radius c im x y).WellFormed := by
  unfold paintOne
  simp only []
  split
  · exact hw
  · split <;> exact image.WellFormed_SetColorIndex im hw x y _

theorem Rect_paintOne (size radius : Int) (c : Nat) (im : image.Paletted) (x y : Int) :
    (paintOne size radius c im x y).Rect = im.Rect := by
  unfold paintOne
  simp only []
  split
  · rfl
  · split <;> exact image.Rect_SetColorIndex im x y _

theorem ColorIndexAt_paintOne (size radius : Int) (c : Nat) (im : image.Paletted)
    (hw : im.WellFormed) (x y qx qy : Int) :
    (paintOne size radius c im x y).ColorIndexAt qx qy
      = if x = qx ∧ y = qy ∧ im.Rect.contains qx qy = true ∧
            distanceFromCenter qx qy (size.tdiv 2) (size.tdiv 2) ≤ radius
        then (if distanceFromCenter qx qy (size.tdiv 2) (size.tdiv 2) > radius - 10
              then 1 else c % 256)
        else im.ColorIndexAt qx qy := by
  unfold paintOne
  simp only []
  by_cases hq : x = qx ∧ y = qy
  · obtain ⟨rfl, rfl⟩ := hq
    by_cases h1 : distanceFromCenter x y (size.tdiv 2) (size.tdiv 2) > radius
    · rw [if_pos h1, if_neg (by omega)]
    · rw [if_neg h1]
      by_cases h2 : distanceFromCenter x y (size.tdiv 2) (size.tdiv 2) > radius - 10
      · rw [if_pos h2, image.ColorIndexAt_SetColorIndex im hw]
        by_cases hc : im.Rect.contains x y = true
        · simp [hc, h2, Int.not_lt.1 h1]
        · simp [hc]
      · rw [if_neg h2, image.ColorIndexAt_SetColorIndex im hw]
        by_cases hc : im.Rect.contains x y = true
        · simp [hc, h2, Int.not_lt.1 h1]
        · simp [hc]
  · have hc : ¬ (x = qx ∧ y = qy ∧ im.Rect.contains qx qy = true ∧
        distanceFromCenter qx qy (size.tdiv 2) (size.tdiv 2) ≤ radius) :=
      fun h => hq ⟨h.1, h.2.1⟩
    have hc' : ∀ v, (im.SetColorIndex x y v).ColorIndexAt qx qy = im.ColorIndexAt qx qy := by
      intro v
      rw [image.ColorIndexAt_SetColorIndex im hw, if_neg (fun h => hq ⟨h.1, h.2.1⟩)]
    rw [if_neg hc]
    split
    · rfl
    · split <;> exact hc' _

theorem column_foldl (size radius : Int) (c : Nat) (x qx qy : Int) (ys : List Int)
    (im : image.Paletted) (hw : im.WellFormed) :
    (ys.foldl (fun im y => paintOne size radius c im x y) im).WellFormed ∧
    (ys.foldl (fun im y => paintOne size radius c im x y) im).Rect = im.Rect ∧
    (ys.foldl (fun im y => paintOne size radius c im x y) im).ColorIndexAt qx qy
      = if x = qx ∧ qy ∈ ys ∧ im.Rect.contains qx qy = true ∧
            distanceFromCenter qx qy (size.tdiv 2) (size.tdiv 2) ≤ radius
        then (if distanceFromCenter qx qy (size.tdiv 2) (size.tdiv 2) > radius - 10
              then 1 else c % 256)
        else im.ColorIndexAt qx qy := by
  induction ys generalizing im with
  | nil => exact ⟨hw, rfl, by simp⟩
  | cons y ys ih =>
    simp only [List.foldl_cons]
    obtain ⟨i1, i2, i3⟩ := ih (paintOne size radius c im x y)
      (WellFormed_paintOne size radius c im hw x y)
    refine ⟨i1, by rw [i2, Rect_paintOne], ?_⟩
    rw [i3, Rect_paintOne, ColorIndexAt_paintOne size radius c im hw]
    by_cases h : x = qx ∧ im.Rect.contains qx qy = true ∧
        distanceFromCenter qx qy (size.tdiv 2) (size.tdiv 2) ≤ radius
    · obtain ⟨hx, hc, hd⟩ := h
      by_cases hm : qy ∈ ys
      · simp [hx, hc, hd, hm]
      · by_cases hy : y = qy
        · simp [hx, hc, hd, hy]
        · have hy' : ¬ qy = y := fun e => hy e.symm
          simp [hx, hc, hd, hm, hy, hy']
    · have n1 : ¬ (x = qx ∧ qy ∈ ys ∧ im.Rect.contains qx qy = true ∧
          distanceFromCenter qx qy (size.tdiv 2) (size.tdiv 2) ≤ radius) :=
        fun k => h ⟨k.1, k.2.2.1, k.2.2.2⟩
      have n2 : ¬ (x = qx ∧ y = qy ∧ im.Rect.contains qx qy = true ∧
          distanceFromCenter qx qy (size.tdiv 2) (size.tdiv 2) ≤ radius) :=
        fun k => h ⟨k.1, k.2.2.1, k.2.2.2⟩
      have n3 : ¬ (x = qx ∧ qy ∈ y :: ys ∧ im.Rect.contains qx qy = true ∧
          distanceFromCenter qx qy (size.tdiv 2) (size.tdiv 2) ≤ radius) :=
        fun k => h ⟨k.1, k.2.2.1, k.2.2.2⟩
      rw [if_neg n1, if_neg n2, if_neg n3]

theorem grid_foldl (size radius : Int) (c : Nat) (qx qy : Int) (xs ys : List Int)
    (im : image.Paletted) (hw : im.WellFormed) :
    (xs.foldl (fun im x => ys.foldl (fun im y => paintOne size radius c im x y) im)
        im).WellFormed ∧
    (xs.foldl (fun im x => ys.foldl (fun im y => paintOne size radius c im x y) im)
        im).Rect = im.Rect ∧
    (xs.foldl (fun im x => ys.foldl (fun im y => paintOne size radius c im x y) im)
        im).ColorIndexAt qx qy
      = if qx ∈ xs ∧ qy ∈ ys ∧ im.Rect.contains qx qy = true ∧
            distanceFromCenter qx qy (size.tdiv 2) (size.tdiv 2) ≤ radius
        then (if distanceFromCenter qx qy (size.tdiv 2) (size.tdiv 2) > radius - 10
              then 1 else c % 256)
        else im.ColorIndexAt qx qy := by
  induction xs generalizing im with
  | nil => exact ⟨hw, rfl, by simp⟩
  | cons x xs ih =>
    simp only [List.foldl_cons]
    obtain ⟨c1, c2, c3⟩ := column_foldl size radius c x qx qy ys im hw
    obtain ⟨i1, i2, i3⟩ := ih _ c1
    refine ⟨i1, by rw [i2, c2], ?_⟩
    rw [i3, c2, c3]
    by_cases h : qy ∈ ys ∧ im.Rect.contains qx qy = true ∧
        distanceFromCenter qx qy (size.tdiv 2) (size.tdiv 2) ≤ radius
    · obtain ⟨hy, hc, hd⟩ := h
      by_cases hm : qx ∈ xs
      · simp [hy, hc, hd, hm]
      · by_cases hx : x = qx
        · simp [hy, hc, hd, hx]
        · have hx' : ¬ qx = x := fun e => hx e.symm
          simp [hy, hc, hd, hm, hx, hx']
    · have n1 : ¬ (qx ∈ xs ∧ qy ∈ ys ∧ im.Rect.contains qx qy = true ∧
          distanceFromCenter qx qy (size.tdiv 2) (size.tdiv 2) ≤ radius) := fun k => h k.2
      have n2 : ¬ (x = qx ∧ qy ∈ ys ∧ im.Rect.contains qx qy = true ∧
          distanceFromCenter qx qy (size.tdiv 2) (size.tdiv 2) ≤ radius) := fun k => h k.2
      have n3 : ¬ (qx ∈ x :: xs ∧ qy ∈ ys ∧ im.Rect.contains qx qy = true ∧
          distanceFromCenter qx qy (size.tdiv 2) (size.tdiv 2) ≤ radius) := fun k => h k.2
      rw [if_neg n1, if_neg n2, if_neg n3]

theorem mem_loopRange (lo hi v : Int) : v ∈ loopRange lo hi ↔ lo ≤ v ∧ v < hi := by
  simp only [loopRange, List.mem_map, List.bind_eq_flatMap, List.pure_def, List.mem_flatMap,
    List.mem_range, List.mem_singleton, Int.lt_toNat]
  constructor
  · rintro ⟨a, ⟨k, hk, rfl⟩, rfl⟩
    omega
  · rintro ⟨h1, h2⟩
    refine ⟨v - lo, ⟨(v - lo).toNat, ?_, ?_⟩, by omega⟩
    · rw [Int.toNat_of_nonneg (by omega)]
      omega
    · exact (Int.toNat_of_nonneg (by omega)).symm

theorem paintPixel_getElem? (pattern : List schedule) (size radius : Int)
    (images : List image.Paletted) (x y : Int) (j : Nat) (s : schedule)
    (im : image.Paletted) (hs : pattern[j]? = some s) (hi : images[j]? = some im) :
    (paintPixel pattern size radius images x y)[j]?
      = some (paintOne size radius s.color im x y) := by
  unfold paintPixel paintOne
  simp only []
  split
  · exact hi
  · split
    · rw [List.getElem?_map, hi]
      rfl
    · rw [List.getElem?_zipWith_eq_some]
      exact ⟨im, s, hi, hs, rfl⟩

theorem column_getElem? (pattern : List schedule) (size radius x : Int) (ys : List Int)
    (images : List image.Paletted) (j : Nat) (s : schedule) (im : image.Paletted)
    (hs : pattern[j]? = some s) (hi : images[j]? = some im) :
    (ys.foldl (fun images y => paintPixel pattern size radius images x y) images)[j]?
      = some (ys.foldl (fun im y => paintOne size radius s.color im x y) im) := by
  induction ys generalizing images im with
  | nil => exact hi
  | cons y ys ih =>
    simp only [List.foldl_cons]
    exact ih _ _ (paintPixel_getElem? pattern size radius images x y j s im hs hi)

theorem grid_getElem? (pattern : List schedule) (size radius : Int) (xs ys : List Int)
    (images : List image.Paletted) (j : Nat) (s : schedule) (im : image.Paletted)
    (hs : pattern[j]? = some s) (hi : images[j]? = some im) :
    (xs.foldl
        (fun images x => ys.foldl (fun images y => paintPixel pattern size radius images x y) images)
        images)[j]?
      = some (xs.foldl
          (fun im x => ys.foldl (fun im y => paintOne size radius s.color im x y) im) im) := by
  induction xs generalizing images im with
  | nil => exact hi
  | cons x xs ih =>
    simp only [List.foldl_cons]
    exact ih _ _ (column_getElem? pattern size radius x ys images j s im hs hi)

/-- The image of frame `j` in the animation: the fresh image after the pixel
loops, run with that frame's colour index. -/
theorem buildAnimation_Image_getElem? (g : Globals) (size margin : Int)
    (order : Nat → List String) (j : Nat) (s : schedule) (hs : g.pattern[j]? = some s) :
    (buildAnimation g size margin order).Image[j]?
      = some ((loopRange margin (size - margin)).foldl
          (fun im x => (loopRange margin (size - margin)).foldl
            (fun im y => paintOne size ((size - margin * 2).tdiv 2) s.color im x y) im)
          (image.Paletted.fresh (image.Rect 0 0 (size - 1) (size - 1))
            (buildPalette g.colorTracking order))) := by
  simp only [buildAnimation, start_foldl]
  apply grid_getElem? _ _ _ _ _ _ _ _ _ hs
  have hj : j < g.pattern.length := by
    rcases List.getElem?_eq_some.1 hs with ⟨h, _⟩
    exact h
  simp [List.getElem?_replicate, hj]

theorem buildAnimation_pixel (g : Globals) (size margin : Int) (order : Nat → List String)
    (j : Nat) (s : schedule) (hs : g.pattern[j]? = some s) (x y : Int) :
    ∃ im, (buildAnimation g size margin order).Image[j]? = some im ∧
      im.Rect = image.Rect 0 0 (size - 1) (size - 1) ∧
      im.WellFormed ∧
      im.ColorIndexAt x y = pixelValue size margin s.color x y := by
  refine ⟨_, buildAnimation_Image_getElem? g size margin order j s hs, ?_⟩
  obtain ⟨h1, h2, h3⟩ := grid_foldl size ((size - margin * 2).tdiv 2) s.color x y
    (loopRange margin (size - margin)) (loopRange margin (size - margin))
    (image.Paletted.fresh (image.Rect 0 0 (size - 1) (size - 1))
      (buildPalette g.colorTracking order))
    (image.WellFormed_fresh _ _ _ _ _)
  refine ⟨h2, h1, ?_⟩
  rw [h3, image.ColorIndexAt_fresh]
  have e : (image.Paletted.fresh (image.Rect 0 0 (size - 1) (size - 1))
      (buildPalette g.colorTracking order)).Rect = image.Rect 0 0 (size - 1) (size - 1) := rfl
  simp only [mem_loopRange, pixelValue, e, and_assoc]

/-- Every image of the animation belongs to a frame of the pattern. -/
theorem buildAnimation_mem_Image (g : Globals) (size margin : Int)
    (order : Nat → List String) (im : image.Paletted)
    (him : im ∈ (buildAnimation g size margin order).Image) :
    ∃ (j : Nat) (s : schedule), g.pattern[j]? = some s ∧
      (buildAnimation g size margin order).Image[j]? = some im := by
  obtain ⟨j, hj⟩ := List.mem_iff_getElem?.1 him
  have hlt : j < g.pattern.length := by
    rcases List.getElem?_eq_some.1 hj with ⟨h, _⟩
    rwa [buildAnimation_Image_length] at h
  exact ⟨j, g.pattern[j], List.getElem?_eq_getElem hlt, hj⟩

theorem buildAnimation_pixel_of_mem (g : Globals) (size margin : Int)
    (order : Nat → List String) (im : image.Paletted)
    (him : im ∈ (buildAnimation g size margin order).Image) (x y : Int) :
    ∃ s ∈ g.pattern, im.Rect = image.Rect 0 0 (size - 1) (size - 1) ∧ im.WellFormed ∧
      im.ColorIndexAt x y = pixelValue size margin s.color x y := by
  obtain ⟨j, s, hs, hj⟩ := buildAnimation_mem_Image g size margin order im him
  obtain ⟨im', h1, h2, h3, h4⟩ := buildAnimation_pixel g size margin order j s hs x y
  rw [hj] at h1
  cases h1
  exact ⟨s, List.getElem?_mem hs, h2, h3, h4⟩

/-! ## Distances and the image rectangle -/

theorem distanceFromCenter_nonneg (x y cx cy : Int) : 0 ≤ distanceFromCenter x y cx cy :=
  Int.natCast_nonneg _

theorem sq_dist_nonneg (x y cx cy : Int) :
    0 ≤ (x - cx) * (x - cx) + (y - cy) * (y - cy) :=
  Int.add_nonneg (mul_self_nonneg _) (mul_self_nonneg _)

theorem distanceFromCenter_eq (x y cx cy : Int) (k : Nat)
    (h1 : (k : Int) * k ≤ (x - cx) * (x - cx) + (y - cy) * (y - cy))
    (h2 : (x - cx) * (x - cx) + (y - cy) * (y - cy) < ((k : Int) + 1) * (k + 1)) :
    distanceFromCenter x y cx cy = (k : Int) := by
  unfold distanceFromCenter
  have hn := sq_dist_nonneg x y cx cy
  have hk : k = Nat.sqrt ((x - cx) * (x - cx) + (y - cy) * (y - cy)).toNat := by
    rw [Nat.eq_sqrt]
    constructor
    · zify
      rw [Int.toNat_of_nonneg hn]
      exact h1
    · zify
      rw [Int.toNat_of_nonneg hn]
      exact h2
  rw [← hk]

theorem lt_distanceFromCenter (x y cx cy r : Int) (hr : 0 ≤ r)
    (h : (r + 1) * (r + 1) ≤ (x - cx) * (x - cx) + (y - cy) * (y - cy)) :
    r < distanceFromCenter x y cx cy := by
  unfold distanceFromCenter
  have hn := sq_dist_nonneg x y cx cy
  have hle : (r + 1).toNat ≤ Nat.sqrt ((x - cx) * (x - cx) + (y - cy) * (y - cy)).toNat := by
    rw [Nat.le_sqrt]
    zify
    rw [Int.toNat_of_nonneg hn, Int.toNat_of_nonneg (by omega)]
    exact h
  have : ((r + 1).toNat : Int) = r + 1 := Int.toNat_of_nonneg (by omega)
  omega

theorem distanceFromCenter_le_iff (x y cx cy r : Int) (hr : 0 ≤ r) :
    distanceFromCenter x y cx cy ≤ r
      ↔ (x - cx) * (x - cx) + (y - cy) * (y - cy) < (r + 1) * (r + 1) := by
  constructor
  · intro h
    by_contra hc
    have := lt_distanceFromCenter x y cx cy r hr (by omega)
    omega
  · intro h
    unfold distanceFromCenter
    have hn := sq_dist_nonneg x y cx cy
    have hlt : Nat.sqrt ((x - cx) * (x - cx) + (y - cy) * (y - cy)).toNat < (r + 1).toNat := by
      rw [Nat.sqrt_lt]
      zify
      rw [Int.toNat_of_nonneg hn, Int.toNat_of_nonneg (by omega)]
      exact h
    have : ((r + 1).toNat : Int) = r + 1 := Int.toNat_of_nonneg (by omega)
    omega

theorem Rect_contains_of_pos (size x y : Int) (hs : 1 ≤ size) :
    (image.Rect 0 0 (size - 1) (size - 1)).contains x y = true
      ↔ 0 ≤ x ∧ x < size - 1 ∧ 0 ≤ y ∧ y < size - 1 := by
  rw [image.contains_iff]
  have h : ¬ (0 : Int) > size - 1 := by omega
  simp only [image.Rect, h, if_false]

theorem Rect_of_pos (size : Int) (hs : 1 ≤ size) :
    image.Rect 0 0 (size - 1) (size - 1)
      = { MinX := 0, MinY := 0, MaxX := size - 1, MaxY := size - 1 } := by
  have h : ¬ (0 : Int) > size - 1 := by omega
  simp only [image.Rect, h, if_false]

theorem buildAnimation_pixel_map (g : Globals) (size margin : Int)
    (order : Nat → List String) (x y : Int) :
    (buildAnimation g size margin order).Image.map (fun im => im.ColorIndexAt x y)
      = g.pattern.map (fun s => pixelValue size margin s.color x y) := by
  apply List.ext_getElem?
  intro j
  rw [List.getElem?_map, List.getElem?_map]
  by_cases hj : j < g.pattern.length
  · obtain ⟨im, h1, -, -, h4⟩ := buildAnimation_pixel g size margin order j g.pattern[j]
      (List.getElem?_eq_getElem hj) x y
    rw [h1, List.getElem?_eq_getElem hj]
    simp [h4]
  · have h1 : g.pattern[j]? = none := List.getElem?_eq_none (by omega)
    have h2 : (buildAnimation g size margin order).Image[j]? = none :=
      List.getElem?_eq_none (by rw [buildAnimation_Image_length]; omega)
    rw [h1, h2]
    rfl

/-! ## Values of `pixelValue` -/

theorem tdiv_two_of_nonneg (a : Int) (h : 0 ≤ a) : a.tdiv 2 = a / 2 :=
  Int.tdiv_eq_ediv h (by decide)

theorem tdiv_two_lt_ten (a : Int) (h : a < 20) : a.tdiv 2 < 10 := by
  by_cases ha : 0 ≤ a
  · rw [tdiv_two_of_nonneg a ha]
    omega
  · have e : a.tdiv 2 = -((-a).tdiv 2) := by
      rw [Int.neg_tdiv, Int.neg_neg]
    rw [e, tdiv_two_of_nonneg (-a) (by omega)]
    omega

theorem pixelValue_border (size margin : Int) (c : Nat) (x y : Int)
    (hx : margin ≤ x ∧ x < size - margin) (hy : margin ≤ y ∧ y < size - margin)
    (hr : (image.Rect 0 0 (size - 1) (size - 1)).contains x y = true)
    (h1 : (size - margin * 2).tdiv 2 - 10 < distanceFromCenter x y (size.tdiv 2) (size.tdiv 2))
    (h2 : distanceFromCenter x y (size.tdiv 2) (size.tdiv 2) ≤ (size - margin * 2).tdiv 2) :
    pixelValue size margin c x y = 1 := by
  unfold pixelValue
  rw [if_pos ⟨hx.1, hx.2, hy.1, hy.2, hr, h2⟩, if_pos h1]

theorem pixelValue_interior (size margin : Int) (c : Nat) (x y : Int)
    (hx : margin ≤ x ∧ x < size - margin) (hy : margin ≤ y ∧ y < size - margin)
    (hr : (image.Rect 0 0 (size - 1) (size - 1)).contains x y = true)
    (h1 : distanceFromCenter x y (size.tdiv 2) (size.tdiv 2)
      ≤ (size - margin * 2).tdiv 2 - 10) :
    pixelValue size margin c x y = c % 256 := by
  unfold pixelValue
  rw [if_pos ⟨hx.1, hx.2, hy.1, hy.2, hr, by omega⟩, if_neg (by omega)]

theorem pixelValue_outside (size margin : Int) (c : Nat) (x y : Int)
    (h : (size - margin * 2).tdiv 2 < distanceFromCenter x y (size.tdiv 2) (size.tdiv 2)) :
    pixelValue size margin c x y = 0 := by
  unfold pixelValue
  rw [if_neg (fun k => by omega)]

theorem pixelValue_not_visited (size margin : Int) (c : Nat) (x y : Int)
    (h : ¬ (margin ≤ x ∧ x < size - margin) ∨ ¬ (margin ≤ y ∧ y < size - margin)) :
    pixelValue size margin c x y = 0 := by
  unfold pixelValue
  rw [if_neg]
  rintro ⟨k1, k2, k3, k4, -, -⟩
  rcases h with h | h
  · exact h ⟨k1, k2⟩
  · exact h ⟨k3, k4⟩

theorem pixelValue_not_in_rect (size margin : Int) (c : Nat) (x y : Int)
    (h : ¬ (image.Rect 0 0 (size - 1) (size - 1)).contains x y = true) :
    pixelValue size margin c x y = 0 := by
  unfold pixelValue
  rw [if_neg (fun k => h k.2.2.2.2.1)]

theorem pixelValue_no_interior (size margin : Int) (c : Nat) (x y : Int)
    (h : size - margin * 2 < 20) :
    pixelValue size margin c x y = 0 ∨ pixelValue size margin c x y = 1 := by
  have hr := tdiv_two_lt_ten _ h
  have hd := distanceFromCenter_nonneg x y (size.tdiv 2) (size.tdiv 2)
  unfold pixelValue
  split
  · rw [if_pos (by omega)]
    exact Or.inr rfl
  · exact Or.inl rfl

theorem pixelValue_no_interior_eq (size margin : Int) (c c' : Nat) (x y : Int)
    (h : size - margin * 2 < 20) :
    pixelValue size margin c x y = pixelValue size margin c' x y := by
  have hr := tdiv_two_lt_ten _ h
  have hd := distanceFromCenter_nonneg x y (size.tdiv 2) (size.tdiv 2)
  unfold pixelValue
  split
  · rw [if_pos (by omega), if_pos (by omega)]
  · rfl

theorem parsePattern_red_10 :
    parsePattern "red 10"
      = Except.ok
          { pattern := [{ color := 2, duration := 10 }],
            colorTracking := [("white", 0), ("black", 1), ("red", 2)] } := by
  decide

theorem Pix_eq_of_ColorIndexAt_eq (p q : image.Paletted) (hp : p.WellFormed)
    (hq : q.WellFormed) (hr : p.Rect = q.Rect)
    (h : ∀ x y, p.ColorIndexAt x y = q.ColorIndexAt x y) : p.Pix = q.Pix := by
  obtain ⟨p1, p2, p3, p4⟩ := hp
  obtain ⟨q1, q2, q3, q4⟩ := hq
  have hlen : p.Pix.length = q.Pix.length := by rw [p4, q4, hr]
  apply List.ext_getElem hlen
  intro i hi hi'
  have hiw : (i : Int) < p.Rect.Dx * p.Rect.Dy := by
    have : i < (p.Rect.Dx * p.Rect.Dy).toNat := by rw [← p4]; exact hi
    omega
  have hwpos : 0 < p.Rect.Dx := by
    by_contra hc
    have h0 : p.Rect.Dx = 0 := by omega
    rw [h0, Int.zero_mul] at hiw
    omega
  have hmod := Int.emod_nonneg (i : Int) (Int.ne_of_gt hwpos)
  have hmod2 := Int.emod_lt_of_pos (i : Int) hwpos
  have hdiv : 0 ≤ (i : Int) / p.Rect.Dx := Int.ediv_nonneg (Int.natCast_nonneg i) p1
  have hdiv2 : (i : Int) / p.Rect.Dx < p.Rect.Dy :=
    Int.ediv_lt_of_lt_mul hwpos (by rw [Int.mul_comm]; exact hiw)
  have hsum : (i : Int) / p.Rect.Dx * p.Rect.Dx + (i : Int) % p.Rect.Dx = i := by
    rw [Int.mul_comm]
    exact Int.ediv_add_emod _ _
  have hcp : p.Rect.contains (p.Rect.MinX + (i : Int) % p.Rect.Dx)
      (p.Rect.MinY + (i : Int) / p.Rect.Dx) = true := by
    rw [image.contains_iff]
    simp only [image.Rectangle.Dx, image.Rectangle.Dy] at *
    omega
  have hcq : q.Rect.contains (p.Rect.MinX + (i : Int) % p.Rect.Dx)
      (p.Rect.MinY + (i : Int) / p.Rect.Dx) = true := by
    rw [← hr]
    exact hcp
  have hop : p.PixOffset (p.Rect.MinX + (i : Int) % p.Rect.Dx)
      (p.Rect.MinY + (i : Int) / p.Rect.Dx) = i := by
    simp only [image.Paletted.PixOffset, p3]
    rw [show ∀ (a b c d w : Int), (a + d - a) * w + (b + c - b) = d * w + c from
      fun a b c d w => by ring]
    exact hsum
  have hoq : q.PixOffset (p.Rect.MinX + (i : Int) % p.Rect.Dx)
      (p.Rect.MinY + (i : Int) / p.Rect.Dx) = i := by
    simp only [image.Paletted.PixOffset, q3, ← hr]
    rw [show ∀ (a b c d w : Int), (a + d - a) * w + (b + c - b) = d * w + c from
      fun a b c d w => by ring]
    exact hsum
  have hxy := h (p.Rect.MinX + (i : Int) % p.Rect.Dx) (p.Rect.MinY + (i : Int) / p.Rect.Dx)
  simp only [image.Paletted.ColorIndexAt, hcp, hcq, if_true, hop, hoq, Int.toNat_ofNat,
    List.getD_eq_getElem?_getD, List.getElem?_eq_getElem hi, List.getElem?_eq_getElem hi',
    Option.getD_some] at hxy
  exact hxy

theorem distanceFromCenter_of_sq (x y cx cy a : Int) (ha : 0 ≤ a)
    (h : (x - cx) * (x - cx) + (y - cy) * (y - cy) = a * a) :
    distanceFromCenter x y cx cy = a := by
  have hk : ((a.toNat : Nat) : Int) = a := Int.toNat_of_nonneg ha
  have := distanceFromCenter_eq x y cx cy a.toNat (by rw [hk, h]) (by rw [hk, h]; nlinarith)
  rw [this, hk]

theorem map_eq_replicate_of_forall {α β : Type} (l : List α) (f : α → β) (v : β)
    (h : ∀ a ∈ l, f a = v) : l.map f = List.replicate l.length v := by
  rw [List.eq_replicate_iff]
  refine ⟨List.length_map _ _, ?_⟩
  intro b hb
  obtain ⟨a, ha, rfl⟩ := List.mem_map.1 hb
  exact h a ha

/-! ## Allocation of the images -/

theorem allocatable_Rect (size : Int) :
    (image.Rect 0 0 (size - 1) (size - 1)).allocatable = true
      ↔ (size - 1) * (size - 1) < 2 ^ 63 := by
  have h1 := image.Rect_Dx_nonneg 0 0 (size - 1) (size - 1)
  have h2 := image.Rect_Dy_nonneg 0 0 (size - 1) (size - 1)
  have e : (image.Rect 0 0 (size - 1) (size - 1)).Dx * (image.Rect 0 0 (size - 1) (size - 1)).Dy
      = (size - 1) * (size - 1) := by
    simp only [image.Rect, image.Rectangle.Dx, image.Rectangle.Dy]
    split <;> ring
  simp only [image.Rectangle.allocatable, decide_eq_true_eq, h1, h2, true_and, e]

theorem allocLoop_ok (rect : image.Rectangle) (palette : List (Option color.Color))
    (h : rect.allocatable = true) (pattern : List schedule)
    (acc : List image.Paletted × List Int) :
    allocLoop rect palette pattern acc
      = Except.ok (pattern.foldl
          (fun acc s => (acc.1 ++ [image.Paletted.fresh rect palette], acc.2 ++ [s.duration]))
          acc) := by
  induction pattern generalizing acc with
  | nil => rfl
  | cons s rest ih =>
    simp only [allocLoop, image.NewPaletted, h, if_true, List.foldl_cons]
    exact ih _

theorem allocLoop_error (rect : image.Rectangle) (palette : List (Option color.Color))
    (h : rect.allocatable = false) (s : schedule) (rest : List schedule)
    (acc : List image.Paletted × List Int) :
    allocLoop rect palette (s :: rest) acc
      = Except.error RuntimePanic.hugeOrNegativeDimensions := by
  simp [allocLoop, image.NewPaletted, h]

/-- When the images can be allocated, or there is no frame to allocate one for,
`createBasicGif` returns the animation of `buildAnimation`. -/
theorem createBasicGif_ok (g : Globals) (size margin : Int) (order : Nat → List String)
    (h : g.pattern = [] ∨ (size - 1) * (size - 1) < 2 ^ 63) :
    createBasicGif g size margin order = Except.ok (buildAnimation g size margin order) := by
  rcases h with h | h
  · simp [createBasicGif, buildAnimation, h, allocLoop]
  · have ha := (allocatable_Rect size).2 h
    simp only [createBasicGif, buildAnimation, allocLoop_ok _ _ ha]

/-- With at least one frame and a rectangle that cannot be allocated,
`createBasicGif` panics. -/
theorem createBasicGif_error (g : Globals) (size margin : Int) (order : Nat → List String)
    (hp : g.pattern ≠ []) (h : 2 ^ 63 ≤ (size - 1) * (size - 1)) :
    createBasicGif g size margin order
      = Except.error RuntimePanic.hugeOrNegativeDimensions := by
  have ha : (image.Rect 0 0 (size - 1) (size - 1)).allocatable = false := by
    rw [← Bool.not_eq_true, allocatable_Rect]
    omega
  cases hpat : g.pattern with
  | nil => exact absurd hpat hp
  | cons s rest => simp only [createBasicGif, hpat, allocLoop_error _ _ ha]

/-- Whatever animation `createBasicGif` returns is the one of `buildAnimation`. -/
theorem createBasicGif_eq_ok (g : Globals) (size margin : Int) (order : Nat → List String)
    (anim : gif.GIF) (h : createBasicGif g size margin order = Except.ok anim) :
    anim = buildAnimation g size margin order := by
  by_cases hf : g.pattern = [] ∨ (size - 1) * (size - 1) < 2 ^ 63
  · rw [createBasicGif_ok g size margin order hf] at h
    cases h
    rfl
  · have h1 : g.pattern ≠ [] := fun e => hf (Or.inl e)
    have h2 : 2 ^ 63 ≤ (size - 1) * (size - 1) := by
      have := fun e => hf (Or.inr e)
      omega
    rw [createBasicGif_error g size margin order h1 h2] at h
    cases h

theorem Run_of_parsePattern (input : String) (g : Globals) (size border : Int)
    (order : Nat → List String) (h : parsePattern input = Except.ok g) :
    Run input size border order = createBasicGif g size border order := by
  simp only [Run, h]

/-! ## Settled claims -/

theorem keysAfter_seed_nodup (names : List String) :
    (keysAfter ["white", "black"] names).Nodup :=
  nodup_keysAfter _ _ (by decide)

theorem white_mem_keysAfter (names : List String) :
    "white" ∈ keysAfter ["white", "black"] names := by
  simp [mem_keysAfter]

theorem black_mem_keysAfter (names : List String) :
    "black" ∈ keysAfter ["white", "black"] names := by
  simp [mem_keysAfter]

theorem keysAfter_seed_getElem?_zero (names : List String) :
    (keysAfter ["white", "black"] names)[0]? = some "white" := by
  obtain ⟨e, he⟩ := keysAfter_prefix ["white", "black"] names
  simp [he]

theorem keysAfter_seed_getElem?_one (names : List String) :
    (keysAfter ["white", "black"] names)[1]? = some "black" := by
  obtain ⟨e, he⟩ := keysAfter_prefix ["white", "black"] names
  simp [he]

theorem keysAfter_of_subset (ks names : List String) (h : ∀ c ∈ names, c ∈ ks) :
    keysAfter ks names = ks := by
  induction names with
  | nil => rfl
  | cons n ns ih =>
    rw [keysAfter_cons]
    have hn : n ∈ ks := h n (by simp)
    simp only [hn, if_true]
    exact ih (fun c hc => h c (List.mem_cons_of_mem _ hc))

theorem toFinset_keysAfter (ks names : List String) :
    (keysAfter ks names).toFinset = (ks ++ names).toFinset := by
  ext c
  simp [mem_keysAfter]

/-- C1: for every pattern with an even number of single-space-separated tokens
(in particular every valid one), parsing succeeds and the palette built by
`createBasicGif` and attached to every image it returns, whatever order the map is
iterated in, has as many entries as there are distinct names among white, black and the names of
the pattern; entry 0 is the colour white and entry 1 the colour black; a
pattern that uses only black and white gives a palette of length 2. -/
theorem C1_palette_length_and_reserved_slots (input : String)
    (heven : (strings.Split input).length % 2 = 0) :
    ∃ g, parsePattern input = Except.ok g ∧
      ∀ order : Nat → List String,
        (∀ i, (order i).Perm (g.colorTracking.map Prod.fst)) →
        (∀ (size margin : Int) (anim : gif.GIF),
          createBasicGif g size margin order = Except.ok anim →
          ∀ im ∈ anim.Image, im.Palette = buildPalette g.colorTracking order) ∧
        (buildPalette g.colorTracking order).length
            = ("white" :: "black" :: colourNames (strings.Split input)).toFinset.card ∧
        (buildPalette g.colorTracking order)[0]? = some (some color.White) ∧
        (buildPalette g.colorTracking order)[1]? = some (some color.Black) ∧
        ((∀ c ∈ colourNames (strings.Split input), c = "white" ∨ c = "black") →
          (buildPalette g.colorTracking order).length = 2) := by
  refine ⟨_, parsePattern_even input heven, ?_⟩
  intro order ho
  refine ⟨fun size margin anim h => by
    rw [createBasicGif_eq_ok _ size margin order anim h]
    exact buildAnimation_Palette _ size margin order, ?_⟩
  simp only [keys_indexed] at ho
  simp only [buildPalette_indexed _ (keysAfter_seed_nodup _) order ho]
  refine ⟨?_, ?_, ?_, ?_⟩
  · rw [List.length_map, ← List.toFinset_card_of_nodup (keysAfter_seed_nodup _),
      toFinset_keysAfter]
    rfl
  · rw [List.getElem?_map, keysAfter_seed_getElem?_zero]
    rfl
  · rw [List.getElem?_map, keysAfter_seed_getElem?_one]
    rfl
  · intro h
    rw [keysAfter_of_subset]
    · rfl
    · intro c hc
      rcases h c hc with h1 | h1 <;> simp [h1]

/-- C1, at the pattern "red 10 redoff 10". -/
theorem C1_palette_length_and_reserved_slots_witness :
    (strings.Split "red 10 redoff 10").length % 2 = 0 ∧
    ∃ g, parsePattern "red 10 redoff 10" = Except.ok g ∧
      ∀ order : Nat → List String,
        (∀ i, (order i).Perm (g.colorTracking.map Prod.fst)) →
        (∀ (size margin : Int) (anim : gif.GIF),
          createBasicGif g size margin order = Except.ok anim →
          ∀ im ∈ anim.Image, im.Palette = buildPalette g.colorTracking order) ∧
        (buildPalette g.colorTracking order).length
            = ("white" :: "black" ::
                colourNames (strings.Split "red 10 redoff 10")).toFinset.card ∧
        (buildPalette g.colorTracking order)[0]? = some (some color.White) ∧
        (buildPalette g.colorTracking order)[1]? = some (some color.Black) ∧
        ((∀ c ∈ colourNames (strings.Split "red 10 redoff 10"), c = "white" ∨ c = "black") →
          (buildPalette g.colorTracking order).length = 2) :=
  ⟨by decide, C1_palette_length_and_reserved_slots "red 10 redoff 10" (by decide)⟩

theorem recognized_length : recognized.length = 10 := by
  decide

theorem keysAfter_seed_subset_recognized (names : List String)
    (hvalid : ∀ c ∈ names, c ∈ recognized) :
    keysAfter ["white", "black"] names ⊆ recognized := by
  intro c hc
  rcases (mem_keysAfter _ _ c).1 hc with h | h
  · simp only [List.mem_cons, List.mem_singleton, List.not_mem_nil, or_false] at h
    rcases h with h | h <;> subst h <;> decide
  · exact hvalid c h

theorem keysAfter_seed_length_le (names : List String)
    (hvalid : ∀ c ∈ names, c ∈ recognized) :
    (keysAfter ["white", "black"] names).length ≤ 10 := by
  have h := ((keysAfter_seed_nodup names).subperm
    (keysAfter_seed_subset_recognized names hvalid)).length_le
  rwa [recognized_length] at h

theorem colors_isSome_of_recognized (c : String) (h : c ∈ recognized) :
    ∃ col, colors c = some col := by
  have h1 : (colorTable.lookup c).isSome := by
    rw [List.lookup_isSome_iff]
    obtain ⟨p, hp, rfl⟩ := List.mem_map.1 h
    exact ⟨p, hp, by simp⟩
  exact Option.isSome_iff_exists.1 h1

/-- C2: for every valid pattern (an even number of single-space-separated
tokens, every colour name recognized) parsing succeeds with one frame per
pair, and for every frame k the frame's colour index is below the palette
length and the palette entry at that index is the colour that `colors` gives
for the token at position 2k. -/
theorem C2_frame_index_in_palette (input : String)
    (heven : (strings.Split input).length % 2 = 0)
    (hvalid : ∀ c ∈ colourNames (strings.Split input), c ∈ recognized) :
    ∃ g, parsePattern input = Except.ok g ∧
      g.pattern.length = (strings.Split input).length / 2 ∧
      ∀ order : Nat → List String,
        (∀ i, (order i).Perm (g.colorTracking.map Prod.fst)) →
        ∀ (k : Nat), k < g.pattern.length →
          ∃ f name col, g.pattern[k]? = some f ∧
            (strings.Split input)[2 * k]? = some name ∧
            colors name = some col ∧
            f.color < (buildPalette g.colorTracking order).length ∧
            (buildPalette g.colorTracking order)[f.color]? = some (some col) := by
  refine ⟨_, parsePattern_even input heven, ?_, ?_⟩
  · simp [length_tokenPairs]
  · intro order ho k hk
    simp only [keys_indexed] at ho
    simp only [buildPalette_indexed _ (keysAfter_seed_nodup _) order ho]
    simp only [List.length_map] at hk
    obtain ⟨p, hp⟩ : ∃ p, (tokenPairs (strings.Split input))[k]? = some p :=
      ⟨_, List.getElem?_eq_getElem hk⟩
    have htok := (tokenPairs_getElem? _ k p).1 hp
    have hname : p.1 ∈ colourNames (strings.Split input) := by
      have h1 : (colourNames (strings.Split input))[k]? = some p.1 := by
        rw [colourNames_getElem?]
        exact htok.1
      exact List.getElem?_mem h1
    have hmem : p.1 ∈ keysAfter ["white", "black"] (colourNames (strings.Split input)) :=
      (mem_keysAfter _ _ _).2 (Or.inr hname)
    have hlt := List.indexOf_lt_length.2 hmem
    have hle := keysAfter_seed_length_le _ hvalid
    obtain ⟨col, hcol⟩ := colors_isSome_of_recognized p.1 (hvalid _ hname)
    have hmod : List.indexOf p.1
        (keysAfter ["white", "black"] (colourNames (strings.Split input))) % 256
        = List.indexOf p.1
            (keysAfter ["white", "black"] (colourNames (strings.Split input))) :=
      Nat.mod_eq_of_lt (by omega)
    refine ⟨frameOf (keysAfter ["white", "black"] (colourNames (strings.Split input))) p,
      p.1, col, ?_, htok.1, hcol, ?_, ?_⟩
    · simp [List.getElem?_map, hp]
    · simp only [frameOf, hmod, List.length_map]
      exact hlt
    · simp only [frameOf, hmod, List.getElem?_map, List.getElem?_indexOf hmem, Option.map_some',
        hcol]

/-- C2, at the pattern "red 10 redoff 10". -/
theorem C2_frame_index_in_palette_witness :
    (strings.Split "red 10 redoff 10").length % 2 = 0 ∧
    (∀ c ∈ colourNames (strings.Split "red 10 redoff 10"), c ∈ recognized) ∧
    ∃ g, parsePattern "red 10 redoff 10" = Except.ok g ∧
      g.pattern.length = (strings.Split "red 10 redoff 10").length / 2 ∧
      ∀ order : Nat → List String,
        (∀ i, (order i).Perm (g.colorTracking.map Prod.fst)) →
        ∀ (k : Nat), k < g.pattern.length →
          ∃ f name col, g.pattern[k]? = some f ∧
            (strings.Split "red 10 redoff 10")[2 * k]? = some name ∧
            colors name = some col ∧
            f.color < (buildPalette g.colorTracking order).length ∧
            (buildPalette g.colorTracking order)[f.color]? = some (some col) :=
  ⟨by decide, by decide,
    C2_frame_index_in_palette "red 10 redoff 10" (by decide) (by decide)⟩

theorem lookup_indexed_eq_some (ks : List String) (c : String) (v : Nat) :
    (indexed ks).lookup c = some v ↔ c ∈ ks ∧ ks.indexOf c = v := by
  rw [lookup_indexed]
  by_cases h : c ∈ ks <;> simp [h]

/-- C3: after parsing any pattern with an even number of tokens the palette
map has distinct keys, sends white to 0 and black to 1, holds exactly white,
black and the names of the pattern, uses every index 0, ..., N-1 (N the map
size) for exactly one name, gives the names other than white and black
indices from 2 on, and orders those names by their first occurrence in the
pattern. -/
theorem C3_palette_map_first_seen_order (input : String)
    (heven : (strings.Split input).length % 2 = 0) :
    ∃ g, parsePattern input = Except.ok g ∧
      (g.colorTracking.map Prod.fst).Nodup ∧
      g.colorTracking.lookup "white" = some 0 ∧
      g.colorTracking.lookup "black" = some 1 ∧
      (∀ c, (g.colorTracking.lookup c).isSome
        ↔ c = "white" ∨ c = "black" ∨ c ∈ colourNames (strings.Split input)) ∧
      (∀ c v, g.colorTracking.lookup c = some v → v < g.colorTracking.length) ∧
      (∀ i, i < g.colorTracking.length → ∃! c, g.colorTracking.lookup c = some i) ∧
      (∀ c v, c ≠ "white" → c ≠ "black" → g.colorTracking.lookup c = some v → 2 ≤ v) ∧
      (∀ a b, a ∈ colourNames (strings.Split input) → b ∈ colourNames (strings.Split input) →
        a ≠ "white" → a ≠ "black" → b ≠ "white" → b ≠ "black" →
        (trackedIndex g.colorTracking a < trackedIndex g.colorTracking b
          ↔ (colourNames (strings.Split input)).indexOf a
              < (colourNames (strings.Split input)).indexOf b)) := by
  refine ⟨_, parsePattern_even input heven, ?_, ?_, ?_, ?_, ?_, ?_, ?_, ?_⟩
  · rw [keys_indexed]
    exact keysAfter_seed_nodup _
  · rw [lookup_indexed_eq_some]
    exact ⟨white_mem_keysAfter _, by
      rw [indexOf_keysAfter_of_mem _ _ _ (by simp)]; rfl⟩
  · rw [lookup_indexed_eq_some]
    exact ⟨black_mem_keysAfter _, by
      rw [indexOf_keysAfter_of_mem _ _ _ (by simp)]; decide⟩
  · intro c
    rw [lookup_indexed]
    by_cases h : c ∈ keysAfter ["white", "black"] (colourNames (strings.Split input))
    · have h2 := (mem_keysAfter _ _ c).1 h
      simp only [List.mem_cons, List.mem_singleton, List.not_mem_nil, or_false] at h2
      simp only [h, if_true, Option.isSome_some, true_iff]
      tauto
    · have h2 := fun e => h ((mem_keysAfter _ _ c).2 e)
      simp only [List.mem_cons, List.mem_singleton, List.not_mem_nil, or_false] at h2
      simp only [h, if_false, Option.isSome_none]
      constructor
      · intro e; cases e
      · intro e; exact absurd (by tauto) h2
  · intro c v h
    rw [lookup_indexed_eq_some] at h
    rw [length_indexed, ← h.2]
    exact List.indexOf_lt_length.2 h.1
  · intro i hi
    rw [length_indexed] at hi
    refine ⟨(keysAfter ["white", "black"] (colourNames (strings.Split input)))[i], ?_, ?_⟩
    · show (indexed _).lookup _ = some i
      rw [lookup_indexed_eq_some]
      exact ⟨List.getElem_mem hi, List.indexOf_getElem (keysAfter_seed_nodup _) i hi⟩
    · intro c hc
      rw [lookup_indexed_eq_some] at hc
      obtain ⟨hm, rfl⟩ := hc
      exact (List.indexOf_get (List.indexOf_lt_length.2 hm)).symm
  · intro c v hw hb h
    rw [lookup_indexed_eq_some] at h
    rw [← h.2]
    exact length_le_indexOf_keysAfter ["white", "black"] _ c (by simp [hw, hb])
  · intro a b ha hb haw hab hbw hbb
    rw [trackedIndex_indexed _ _ ((mem_keysAfter _ _ _).2 (Or.inr ha)),
      trackedIndex_indexed _ _ ((mem_keysAfter _ _ _).2 (Or.inr hb))]
    exact indexOf_keysAfter_lt_iff _ _ a b ha hb (by simp [haw, hab]) (by simp [hbw, hbb])

/-- C3, at the pattern "red 10 white 5 blue 10 red 7". -/
theorem C3_palette_map_first_seen_order_witness :
    (strings.Split "red 10 white 5 blue 10 red 7").length % 2 = 0 ∧
    ∃ g, parsePattern "red 10 white 5 blue 10 red 7" = Except.ok g ∧
      (g.colorTracking.map Prod.fst).Nodup ∧
      g.colorTracking.lookup "white" = some 0 ∧
      g.colorTracking.lookup "black" = some 1 ∧
      (∀ c, (g.colorTracking.lookup c).isSome
        ↔ c = "white" ∨ c = "black"
          ∨ c ∈ colourNames (strings.Split "red 10 white 5 blue 10 red 7")) ∧
      (∀ c v, g.colorTracking.lookup c = some v → v < g.colorTracking.length) ∧
      (∀ i, i < g.colorTracking.length → ∃! c, g.colorTracking.lookup c = some i) ∧
      (∀ c v, c ≠ "white" → c ≠ "black" → g.colorTracking.lookup c = some v → 2 ≤ v) ∧
      (∀ a b, a ∈ colourNames (strings.Split "red 10 white 5 blue 10 red 7") →
        b ∈ colourNames (strings.Split "red 10 white 5 blue 10 red 7") →
        a ≠ "white" → a ≠ "black" → b ≠ "white" → b ≠ "black" →
        (trackedIndex g.colorTracking a < trackedIndex g.colorTracking b
          ↔ (colourNames (strings.Split "red 10 white 5 blue 10 red 7")).indexOf a
              < (colourNames (strings.Split "red 10 white 5 blue 10 red 7")).indexOf b)) :=
  ⟨by decide, C3_palette_map_first_seen_order "red 10 white 5 blue 10 red 7" (by decide)⟩

theorem colors_eq_none_of_not_recognized (c : String) (h : c ∉ recognized) :
    colors c = none := by
  unfold colors
  rw [List.lookup_eq_none_iff]
  intro p hp
  have hne : c ≠ p.1 := fun e => h (e ▸ List.mem_map.2 ⟨p, hp, rfl⟩)
  simpa using hne

/-- C4 as stated fails: the unrecognized name of "purple 10" raises no error;
it gets the palette-map entry 2 and a frame of its own. -/
theorem C4_counterexample :
    "purple" ∉ recognized ∧
    parsePattern "purple 10"
      = Except.ok
          { pattern := [{ color := 2, duration := 10 }],
            colorTracking := [("white", 0), ("black", 1), ("purple", 2)] } := by
  decide

theorem indexOf_keysAfter_first (ks names : List String) (name : String)
    (hk : name ∉ ks) (hm : name ∈ names) :
    (keysAfter ks names).indexOf name
      = (keysAfter ks (names.take (names.indexOf name))).length := by
  induction names generalizing ks with
  | nil => simp at hm
  | cons n ns ih =>
    by_cases hn : n = name
    · subst hn
      rw [keysAfter_cons, if_neg hk, List.indexOf_cons_self, List.take_zero,
        indexOf_keysAfter_new ks ns n hk]
      rfl
    · have hm' : name ∈ ns := by
        rcases List.mem_cons.1 hm with h | h
        · exact absurd h.symm hn
        · exact h
      rw [List.indexOf_cons_ne _ hn, List.take_succ_cons, keysAfter_cons, keysAfter_cons]
      apply ih _ _ hm'
      by_cases hnk : n ∈ ks
      · simpa [hnk] using hk
      · have hne : ¬ name = n := fun e => hn e.symm
        simp [hnk, hk, hne]

/-- C4, amended: a colour name outside the recognized set is not rejected.  For
every pattern with an even number of tokens whose token 2k is such a name,
parsing succeeds; the name has a palette-map entry whose index is the size the
map had when the name first occurred (the number of distinct names among
white, black and the colour names before that occurrence); frame k exists and
carries that index converted to `uint8`, which is the index itself as long as
it is below 256; and the palette built by `createBasicGif` holds the nil colour
at that index. -/
theorem C4_unrecognized_name_is_accepted (input : String)
    (heven : (strings.Split input).length % 2 = 0) (k : Nat) (name : String)
    (hname : (strings.Split input)[2 * k]? = some name) (hunknown : name ∉ recognized) :
    ∃ g v f, parsePattern input = Except.ok g ∧
      g.colorTracking.lookup name = some v ∧
      v = ("white" :: "black" :: (colourNames (strings.Split input)).take
            ((colourNames (strings.Split input)).indexOf name)).toFinset.card ∧
      g.pattern[k]? = some f ∧ f.color = v % 256 ∧ (v < 256 → f.color = v) ∧
      ∀ order : Nat → List String,
        (∀ i, (order i).Perm (g.colorTracking.map Prod.fst)) →
        (buildPalette g.colorTracking order)[v]? = some none := by
  have hlen : 2 * k < (strings.Split input).length := by
    rcases List.getElem?_eq_some.1 hname with ⟨h, _⟩
    exact h
  have hlen2 : 2 * k + 1 < (strings.Split input).length := by omega
  have hpair : (tokenPairs (strings.Split input))[k]?
      = some (name, (strings.Split input)[2 * k + 1]) :=
    (tokenPairs_getElem? _ k _).2 ⟨hname, List.getElem?_eq_getElem hlen2⟩
  have hmemn : name ∈ colourNames (strings.Split input) := by
    have h1 : (colourNames (strings.Split input))[k]? = some name := by
      rw [colourNames_getElem?]
      exact hname
    exact List.getElem?_mem h1
  have hmem : name ∈ keysAfter ["white", "black"] (colourNames (strings.Split input)) :=
    (mem_keysAfter _ _ _).2 (Or.inr hmemn)
  have hseed : name ∉ ["white", "black"] := by
    intro h
    apply hunknown
    simp only [List.mem_cons, List.mem_singleton, List.not_mem_nil, or_false] at h
    rcases h with h | h <;> subst h <;> decide
  have hv : (keysAfter ["white", "black"] (colourNames (strings.Split input))).indexOf name
      = ("white" :: "black" :: (colourNames (strings.Split input)).take
          ((colourNames (strings.Split input)).indexOf name)).toFinset.card := by
    rw [indexOf_keysAfter_first _ _ name hseed hmemn,
      ← List.toFinset_card_of_nodup (keysAfter_seed_nodup _), toFinset_keysAfter]
    rfl
  refine ⟨_, (keysAfter ["white", "black"] (colourNames (strings.Split input))).indexOf name,
    frameOf (keysAfter ["white", "black"] (colourNames (strings.Split input)))
      (name, (strings.Split input)[2 * k + 1]),
    parsePattern_even input heven, ?_, hv, ?_, rfl, ?_, ?_⟩
  · exact (lookup_indexed_eq_some _ _ _).2 ⟨hmem, rfl⟩
  · simp [List.getElem?_map, hpair]
  · intro hlt
    exact Nat.mod_eq_of_lt hlt
  · intro order ho
    simp only [keys_indexed] at ho
    rw [buildPalette_indexed _ (keysAfter_seed_nodup _) order ho, List.getElem?_map,
      List.getElem?_indexOf hmem, Option.map_some', colors_eq_none_of_not_recognized name hunknown]

/-- C4 amended, at the pattern "red 5 purple 10": purple is the fourth distinct
name, so its index and its frame colour are 3. -/
theorem C4_unrecognized_name_is_accepted_witness :
    (strings.Split "red 5 purple 10").length % 2 = 0 ∧
    (strings.Split "red 5 purple 10")[2 * 1]? = some "purple" ∧
    "purple" ∉ recognized ∧
    ∃ g f, parsePattern "red 5 purple 10" = Except.ok g ∧
      g.colorTracking.lookup "purple" = some 3 ∧
      g.pattern[1]? = some f ∧ f.color = 3 := by
  refine ⟨by decide, by decide, by decide, ?_⟩
  obtain ⟨g, v, f, hg, hl, hv, hf, -, hc, -⟩ :=
    C4_unrecognized_name_is_accepted "red 5 purple 10" (by decide) 1 "purple" (by decide)
      (by decide)
  have h3 : v = 3 := by rw [hv]; decide
  subst h3
  exact ⟨g, f, hg, hl, hf, hc (by decide)⟩

/-- C5, what the code does: for every pattern with an odd number of tokens the
loop reads `p[i+1]` one past the end of the token list, so the run stops with
an index-out-of-range panic (index and length both equal to the token count);
no parse error is returned and no animation is built. -/
theorem C5_odd_token_count_panics (input : String)
    (hodd : (strings.Split input).length % 2 = 1) :
    parsePattern input
        = Except.error (RuntimePanic.indexOutOfRange (strings.Split input).length
            (strings.Split input).length) ∧
      ∀ (size border : Int) (order : Nat → List String),
        Run input size border order
          = Except.error (RuntimePanic.indexOutOfRange (strings.Split input).length
              (strings.Split input).length) := by
  have h := parsePattern_odd input hodd
  refine ⟨h, ?_⟩
  intro size border order
  simp only [Run, h]

/-- C5, at the pattern "red". -/
theorem C5_odd_token_count_panics_witness :
    (strings.Split "red").length % 2 = 1 ∧
    parsePattern "red" = Except.error (RuntimePanic.indexOutOfRange 1 1) ∧
      ∀ (size border : Int) (order : Nat → List String),
        Run "red" size border order = Except.error (RuntimePanic.indexOutOfRange 1 1) :=
  ⟨by decide, C5_odd_token_count_panics "red" (by decide)⟩

theorem loopBody_pattern (g : Globals) (name text : String) :
    (loopBody g name text).pattern
      = g.pattern ++ [{ color := trackedIndex (track g.colorTracking name) name % 256,
                        duration := (strconv.ParseInt text.data).1 }] := by
  rfl

/-- C6 as stated fails: the duration text "-5" gives the duration -5 and the
over-long digit string "99999999999999999999" gives 2^63 - 1; neither is 0. -/
theorem C6_counterexample :
    (loopBody Globals.initial "red" "-5").pattern = [{ color := 2, duration := -5 }] ∧
    (loopBody Globals.initial "red" "99999999999999999999").pattern
      = [{ color := 2, duration := 9223372036854775807 }] := by
  decide

/-- C6, amended: for every (name, durationText) pair the loop appends one frame
whose duration is
* the value of durationText when it is a non-empty string of decimal digits,
  optionally preceded by `+`, of value below 2^63, and 2^63 - 1 when that value
  is 2^63 or more;
* the negated value when durationText is `-` followed by such digits of value
  at most 2^63, and -2^63 when the value is larger;
* 0 when durationText is empty or a lone sign, and 0 when, after an optional
  sign and digits of value below 2^64, a character that is not a decimal digit
  follows. -/
theorem C6_duration_of_text (g : Globals) (name text : String) :
    ∃ f, (loopBody g name text).pattern = g.pattern ++ [f] ∧
      (∀ ds, (text.data = ds ∨ text.data = '+' :: ds) → ds ≠ [] →
        (∀ c ∈ ds, isDecimalDigit c = true) →
        (decimalValue ds < 2 ^ 63 → f.duration = (decimalValue ds : Int)) ∧
        (2 ^ 63 ≤ decimalValue ds → f.duration = 2 ^ 63 - 1)) ∧
      (∀ ds, text.data = '-' :: ds → ds ≠ [] →
        (∀ c ∈ ds, isDecimalDigit c = true) →
        (decimalValue ds ≤ 2 ^ 63 → f.duration = -(decimalValue ds : Int)) ∧
        (2 ^ 63 < decimalValue ds → f.duration = -(2 ^ 63))) ∧
      (text.data = [] ∨ text.data = ['+'] ∨ text.data = ['-'] → f.duration = 0) ∧
      (∀ sign ds c rest, text.data = sign ++ ds ++ c :: rest →
        (sign = [] ∨ sign = ['+'] ∨ sign = ['-']) →
        (∀ d ∈ ds, isDecimalDigit d = true) → isDecimalDigit c = false →
        (sign = [] → ds = [] → c ≠ '+' ∧ c ≠ '-') →
        decimalValue ds < 2 ^ 64 → f.duration = 0) := by
  refine ⟨_, loopBody_pattern g name text, ?_, ?_, ?_, ?_⟩
  · intro ds htext hne hd
    have hval : (strconv.ParseInt text.data).1
        = if decimalValue ds < 2 ^ 63 then (decimalValue ds : Int) else 2 ^ 63 - 1 := by
      rcases htext with h | h
      · rw [h]; exact strconv.value_digits ds hne hd
      · rw [h]; exact strconv.value_plus_digits ds hne hd
    constructor
    · intro hv
      show (strconv.ParseInt text.data).1 = _
      rw [hval, if_pos hv]
    · intro hv
      show (strconv.ParseInt text.data).1 = _
      rw [hval, if_neg (by omega)]
  · intro ds htext hne hd
    have hval := strconv.value_minus_digits ds hne hd
    rw [← htext] at hval
    constructor
    · intro hv
      show (strconv.ParseInt text.data).1 = _
      rw [hval, if_pos hv]
    · intro hv
      show (strconv.ParseInt text.data).1 = _
      rw [hval, if_neg (by omega)]
  · intro h
    show (strconv.ParseInt text.data).1 = 0
    exact strconv.value_lone_sign _ h
  · intro sign ds c rest htext hs hd hc hsign hv
    show (strconv.ParseInt text.data).1 = 0
    rw [htext]
    exact strconv.value_not_number sign ds c rest hs hd hc hsign hv

/-- C6 amended, at the duration texts "50", "-5", "" and "5x". -/
theorem C6_duration_of_text_witness :
    (∃ f, (loopBody Globals.initial "red" "50").pattern = Globals.initial.pattern ++ [f] ∧
      f.duration = 50) ∧
    (∃ f, (loopBody Globals.initial "red" "-5").pattern = Globals.initial.pattern ++ [f] ∧
      f.duration = -5) ∧
    (∃ f, (loopBody Globals.initial "red" "").pattern = Globals.initial.pattern ++ [f] ∧
      f.duration = 0) ∧
    (∃ f, (loopBody Globals.initial "red" "5x").pattern = Globals.initial.pattern ++ [f] ∧
      f.duration = 0) := by
  refine ⟨?_, ?_, ?_, ?_⟩
  · obtain ⟨f, hf, h1, -, -, -⟩ := C6_duration_of_text Globals.initial "red" "50"
    exact ⟨f, hf, (h1 ['5', '0'] (Or.inl rfl) (by decide) (by decide)).1 (by decide)⟩
  · obtain ⟨f, hf, -, h2, -, -⟩ := C6_duration_of_text Globals.initial "red" "-5"
    exact ⟨f, hf, (h2 ['5'] rfl (by decide) (by decide)).1 (by decide)⟩
  · obtain ⟨f, hf, -, -, h3, -⟩ := C6_duration_of_text Globals.initial "red" ""
    exact ⟨f, hf, h3 (Or.inl rfl)⟩
  · obtain ⟨f, hf, -, -, -, h4⟩ := C6_duration_of_text Globals.initial "red" "5x"
    exact ⟨f, hf, h4 [] ['5'] 'x' [] rfl (Or.inl rfl) (by decide) (by decide)
      (by intro _ h; cases h) (by decide)⟩

theorem length_flattenPairs (pairs : List (String × String)) :
    (flattenPairs pairs).length = 2 * pairs.length := by
  induction pairs with
  | nil => rfl
  | cons p ps ih =>
    simp only [flattenPairs, List.length_cons, ih]
    omega

theorem tokenPairs_flattenPairs (pairs : List (String × String)) :
    tokenPairs (flattenPairs pairs) = pairs := by
  induction pairs with
  | nil => rfl
  | cons p ps ih => simp [flattenPairs, tokenPairs, ih]

theorem parsePattern_default :
    parsePattern patternInput
      = Except.ok
          { pattern := [{ color := 2, duration := 50 }, { color := 3, duration := 50 },
                        { color := 2, duration := 50 }, { color := 3, duration := 50 },
                        { color := 2, duration := 50 }, { color := 3, duration := 500 }],
            colorTracking := [("white", 0), ("black", 1), ("red", 2), ("redoff", 3)] } := by
  decide

/-- C7: for every pattern that splits into n (name, durationText) pairs with
decimal-digit durations (in particular with valid names), on every canvas
whose (size−1)² pixels `image.NewPaletted` accepts, the run hands the
encoder an animation with exactly n images and n delays, delay k being the
duration parsed from pair k (the decimal value of its text whenever that is
below 2^63), and loop count 0; for the default pattern the delays are
50, 50, 50, 50, 50, 500. -/
theorem C7_animation_frames_and_delays (input : String) (pairs : List (String × String))
    (hsplit : strings.Split input = flattenPairs pairs)
    (hdur : ∀ p ∈ pairs, p.2.data ≠ [] ∧ ∀ c ∈ p.2.data, isDecimalDigit c = true)
    (size border : Int) (halloc : (size - 1) * (size - 1) < 2 ^ 63)
    (order : Nat → List String) :
    (∃ anim, Run input size border order = Except.ok anim ∧
      anim.Image.length = pairs.length ∧
      anim.Delay.length = pairs.length ∧
      anim.Delay = pairs.map (fun p => (strconv.Atoi p.2).1) ∧
      ((∀ p ∈ pairs, decimalValue p.2.data < 2 ^ 63) →
        anim.Delay = pairs.map (fun p => (decimalValue p.2.data : Int))) ∧
      anim.LoopCount = 0) ∧
    (∃ anim, Run patternInput size border order = Except.ok anim ∧
      anim.Image.length = 6 ∧
      anim.Delay = [50, 50, 50, 50, 50, 500] ∧
      anim.LoopCount = 0) := by
  constructor
  · have heven : (strings.Split input).length % 2 = 0 := by
      rw [hsplit, length_flattenPairs]
      omega
    have hparse := parsePattern_even input heven
    rw [hsplit, tokenPairs_flattenPairs] at hparse
    refine ⟨_, (Run_of_parsePattern input _ size border order hparse).trans
      (createBasicGif_ok _ size border order (Or.inr halloc)), ?_, ?_, ?_, ?_, ?_⟩
    · rw [buildAnimation_Image_length]
      simp
    · rw [buildAnimation_Delay]
      simp
    · rw [buildAnimation_Delay]
      simp [frameOf]
    · intro hv
      rw [buildAnimation_Delay]
      simp only [List.map_map]
      apply List.map_congr_left
      intro p hp
      obtain ⟨hne, hd⟩ := hdur p hp
      show (strconv.ParseInt p.2.data).1 = _
      rw [strconv.value_digits _ hne hd, if_pos (hv p hp)]
    · exact buildAnimation_LoopCount _ _ _ _
  · refine ⟨_, (Run_of_parsePattern patternInput _ size border order
      parsePattern_default).trans (createBasicGif_ok _ size border order (Or.inr halloc)),
      ?_, ?_, ?_⟩
    · rw [buildAnimation_Image_length]
      rfl
    · rw [buildAnimation_Delay]
      rfl
    · exact buildAnimation_LoopCount _ _ _ _

/-- C7, at the pattern "green 5 blue 70" on a 50-pixel canvas with margin 5. -/
theorem C7_animation_frames_and_delays_witness :
    strings.Split "green 5 blue 70" = flattenPairs [("green", "5"), ("blue", "70")] ∧
    (∃ anim, Run "green 5 blue 70" 50 5 (fun _ => ["white", "black", "green", "blue"])
        = Except.ok anim ∧
      anim.Image.length = 2 ∧ anim.Delay = [5, 70] ∧ anim.LoopCount = 0) := by
  refine ⟨by decide, ?_⟩
  obtain ⟨anim, hrun, himg, -, -, hdelay, hloop⟩ :=
    (C7_animation_frames_and_delays "green 5 blue 70" [("green", "5"), ("blue", "70")]
      (by decide) (by decide) 50 5 (by decide) (fun _ => ["white", "black", "green", "blue"])).1
  exact ⟨anim, hrun, himg, hdelay (by decide), hloop⟩

/-- C8 as stated fails: the delays of the six frames parsed from the default
pattern are 50, 50, 50, 50, 50, 500 and sum to 750, not to 700. -/
theorem C8_counterexample :
    ∃ g, parsePattern patternInput = Except.ok g ∧
      g.pattern.map (fun s => s.duration) = [50, 50, 50, 50, 50, 500] ∧
      (g.pattern.map (fun s => s.duration)).sum ≠ 700 :=
  ⟨_, parsePattern_default, rfl, by decide⟩

/-- C8, amended: parsing the default pattern succeeds with 6 frames whose
delays sum to 750, and every animation that `createBasicGif` returns for them
has 6 images and delays that sum to 750. -/
theorem C8_default_pattern_six_frames_sum_750 :
    ∃ g, parsePattern patternInput = Except.ok g ∧
      g.pattern.length = 6 ∧
      (g.pattern.map (fun s => s.duration)).sum = 750 ∧
      ∀ (size border : Int) (order : Nat → List String) (anim : gif.GIF),
        createBasicGif g size border order = Except.ok anim →
        anim.Image.length = 6 ∧ anim.Delay.sum = 750 := by
  refine ⟨_, parsePattern_default, rfl, by decide, ?_⟩
  intro size border order anim h
  rw [createBasicGif_eq_ok _ size border order anim h, buildAnimation_Image_length,
    buildAnimation_Delay]
  exact ⟨rfl, by decide⟩

/-- C9, what the code does: the empty pattern splits into one empty token, so
the loop reads `p[1]` of a one-element list and the run stops with an
index-out-of-range panic; parsing does not succeed and no animation is
built. -/
theorem C9_empty_pattern_panics :
    strings.Split "" = [""] ∧
    parsePattern "" = Except.error (RuntimePanic.indexOutOfRange 1 1) ∧
    ∀ (size border : Int) (order : Nat → List String),
      Run "" size border order = Except.error (RuntimePanic.indexOutOfRange 1 1) := by
  have h : parsePattern "" = Except.error (RuntimePanic.indexOutOfRange 1 1) := by decide
  refine ⟨by decide, h, ?_⟩
  intro size border order
  simp only [Run, h]

/-- C10 as stated fails: with two spaces between "red" and "50" the token list
has an empty token in the middle and the run panics, and a tab does not
separate tokens at all, while the single-space form parses to one frame. -/
theorem C10_counterexample :
    strings.Split "red  50" = ["red", "", "50"] ∧
    parsePattern "red  50" = Except.error (RuntimePanic.indexOutOfRange 3 3) ∧
    strings.Split "red\t50" = ["red\t50"] ∧
    parsePattern "red\t50" = Except.error (RuntimePanic.indexOutOfRange 1 1) ∧
    parsePattern "red 50"
      = Except.ok
          { pattern := [{ color := 2, duration := 50 }],
            colorTracking := [("white", 0), ("black", 1), ("red", 2)] } := by
  decide

/-- C10, amended: the pattern is cut at every single space character and
nowhere else.  Joining a non-empty sequence of space-free tokens with single
spaces splits back into exactly those tokens, so the run processes exactly
them; and every space ends a token, so that a space right after another space,
at the start or at the end of the text produces an empty token. -/
theorem C10_split_at_single_spaces (tokens : List String) (hne : tokens ≠ [])
    (hfree : ∀ t ∈ tokens, ' ' ∉ t.data) :
    strings.Split (strings.Join tokens) = tokens ∧
    parsePattern (strings.Join tokens) = parseLoop tokens.length 0 tokens Globals.initial ∧
    (∀ (t rest : List Char), ' ' ∉ t →
      strings.Split (String.mk (t ++ ' ' :: rest))
        = String.mk t :: strings.Split (String.mk rest)) := by
  have h := strings.Split_Join tokens hne hfree
  refine ⟨h, ?_, ?_⟩
  · simp only [parsePattern, h]
  · intro t rest ht
    simp [strings.Split, strings.splitSpace_append_space t rest ht]

/-- C10 amended, at the tokens "red", "50", "redoff", "50". -/
theorem C10_split_at_single_spaces_witness :
    strings.Join ["red", "50", "redoff", "50"] = "red 50 redoff 50" ∧
    strings.Split "red 50 redoff 50" = ["red", "50", "redoff", "50"] := by
  have h := (C10_split_at_single_spaces ["red", "50", "redoff", "50"] (by decide)
    (by decide)).1
  have hj : strings.Join ["red", "50", "redoff", "50"] = "red 50 redoff 50" := by decide
  rw [hj] at h
  exact ⟨hj, h⟩

/-- C11 as stated fails: on the 100-pixel canvas with margin 10 (radius 40,
centre 50) the pixel (10, 49) has squared distance 1601 > 1600 = radius², yet
its truncated distance is 40 = radius, so it is drawn as border and holds
index 1, not 0. -/
theorem C11_counterexample :
    (10 - (100 : Int).tdiv 2) ^ 2 + (49 - (100 : Int).tdiv 2) ^ 2
        > ((100 - 10 * 2 : Int).tdiv 2) ^ 2 ∧
    ∃ anim, Run "red 10" 100 10 (fun _ => ["white", "black", "red"]) = Except.ok anim ∧
      anim.Image.map (fun im => im.ColorIndexAt 10 49) = [1] := by
  refine ⟨by decide, _, (Run_of_parsePattern _ _ _ _ _ parsePattern_red_10).trans
    (createBasicGif_ok _ _ _ _ (Or.inr (by decide))), ?_⟩
  rw [buildAnimation_pixel_map]
  have hd : distanceFromCenter 10 49 ((100 : Int).tdiv 2) ((100 : Int).tdiv 2) = (40 : Nat) :=
    distanceFromCenter_eq _ _ _ _ 40 (by decide) (by decide)
  have hv : pixelValue 100 10 2 10 49 = 1 :=
    pixelValue_border 100 10 2 10 49 (by decide) (by decide) (by decide)
      (by rw [hd]; decide) (by rw [hd]; decide)
  simp only [List.map_cons, List.map_nil, hv]

/-- C11, amended: for every canvas with size > 2·margin (in particular with
margin ≥ 0), every state of the pattern and every frame, every pixel whose
truncated distance to the centre exceeds the radius, that is with
(x − size/2)² + (y − size/2)² ≥ (radius + 1)², holds palette index 0. -/
theorem C11_outside_pixels_are_background (g : Globals) (size margin : Int)
    (order : Nat → List String) (x y : Int) (hsize : 2 * margin < size)
    (hd : ((size - margin * 2).tdiv 2 + 1) * ((size - margin * 2).tdiv 2 + 1)
      ≤ (x - size.tdiv 2) * (x - size.tdiv 2) + (y - size.tdiv 2) * (y - size.tdiv 2)) :
    (size - margin * 2).tdiv 2 < distanceFromCenter x y (size.tdiv 2) (size.tdiv 2) ∧
    ∀ anim, createBasicGif g size margin order = Except.ok anim →
      ∀ im ∈ anim.Image, im.ColorIndexAt x y = 0 := by
  have hr : 0 ≤ (size - margin * 2).tdiv 2 := Int.tdiv_nonneg (by omega) (by decide)
  have hlt := lt_distanceFromCenter x y (size.tdiv 2) (size.tdiv 2) _ hr hd
  refine ⟨hlt, ?_⟩
  intro anim hok im him
  rw [createBasicGif_eq_ok g size margin order anim hok] at him
  obtain ⟨s, -, -, -, hv⟩ := buildAnimation_pixel_of_mem g size margin order im him x y
  rw [hv, pixelValue_outside size margin s.color x y hlt]

/-- C11 amended, at the pixel (9, 50) of the 100-pixel canvas with margin 10 and
a one-frame pattern. -/
theorem C11_outside_pixels_are_background_witness :
    (40 : Int) < distanceFromCenter 9 50 ((100 : Int).tdiv 2) ((100 : Int).tdiv 2) ∧
    ∃ anim, createBasicGif
        { pattern := [{ color := 2, duration := 10 }],
          colorTracking := [("white", 0), ("black", 1), ("red", 2)] }
        100 10 (fun _ => ["white", "black", "red"]) = Except.ok anim ∧
      anim.Image.map (fun im => im.ColorIndexAt 9 50) = [0] := by
  have h := C11_outside_pixels_are_background
    { pattern := [{ color := 2, duration := 10 }],
      colorTracking := [("white", 0), ("black", 1), ("red", 2)] }
    100 10 (fun _ => ["white", "black", "red"]) 9 50 (by decide) (by decide)
  have hok := createBasicGif_ok
    { pattern := [{ color := 2, duration := 10 }],
      colorTracking := [("white", 0), ("black", 1), ("red", 2)] }
    100 10 (fun _ => ["white", "black", "red"]) (Or.inr (by decide))
  refine ⟨h.1, _, hok, ?_⟩
  rw [map_eq_replicate_of_forall _ _ 0 (h.2 _ hok), buildAnimation_Image_length]
  rfl

/-- C12, what the code does at margin 0: on the 4-pixel canvas (radius 2,
centre 2) the pixel (3, 2) is inside the visited range [0, 4) and has truncated
distance 1, which is in the border ring, so the loop calls
`SetColorIndex(3, 2, 1)`; but the image rectangle ends at coordinate 2, the
write is dropped and the pixel reads index 0, not 1. -/
theorem C12_border_pixel_in_last_column_reads_zero :
    ((4 - 0 * 2 : Int).tdiv 2 - 10
        < distanceFromCenter 3 2 ((4 : Int).tdiv 2) ((4 : Int).tdiv 2) ∧
      distanceFromCenter 3 2 ((4 : Int).tdiv 2) ((4 : Int).tdiv 2) ≤ (4 - 0 * 2 : Int).tdiv 2) ∧
    ∃ anim, Run "red 10" 4 0 (fun _ => ["white", "black", "red"]) = Except.ok anim ∧
      anim.Image.map (fun im => im.Rect)
        = [{ MinX := 0, MinY := 0, MaxX := 3, MaxY := 3 }] ∧
      anim.Image.map (fun im => im.ColorIndexAt 3 2) = [0] := by
  have hd : distanceFromCenter 3 2 ((4 : Int).tdiv 2) ((4 : Int).tdiv 2) = (1 : Nat) :=
    distanceFromCenter_eq _ _ _ _ 1 (by decide) (by decide)
  refine ⟨by rw [hd]; decide, _, (Run_of_parsePattern _ _ _ _ _ parsePattern_red_10).trans
    (createBasicGif_ok _ _ _ _ (Or.inr (by decide))), ?_, ?_⟩
  · rw [map_eq_replicate_of_forall _ _ (image.Rect 0 0 (4 - 1) (4 - 1))
      (fun im him => by
        obtain ⟨_, _, hr, _, _⟩ := buildAnimation_pixel_of_mem _ 4 0 _ im him 0 0
        exact hr),
      buildAnimation_Image_length]
    decide
  · rw [buildAnimation_pixel_map]
    have hv : pixelValue 4 0 2 3 2 = 0 := pixelValue_not_in_rect 4 0 2 3 2 (by decide)
    simp only [List.map_cons, List.map_nil, hv]

/-- C14: for every canvas, every state of the pattern and every frame of the
animation that `createBasicGif` returns, a pixel with x or y outside
[margin, size − margin) holds palette index 0. -/
theorem C14_margin_band_is_background (g : Globals) (size margin : Int)
    (order : Nat → List String) (x y : Int)
    (hout : ¬ (margin ≤ x ∧ x < size - margin) ∨ ¬ (margin ≤ y ∧ y < size - margin)) :
    ∀ anim, createBasicGif g size margin order = Except.ok anim →
      ∀ im ∈ anim.Image, im.ColorIndexAt x y = 0 := by
  intro anim hok im him
  rw [createBasicGif_eq_ok g size margin order anim hok] at him
  obtain ⟨s, -, -, -, hv⟩ := buildAnimation_pixel_of_mem g size margin order im him x y
  rw [hv, pixelValue_not_visited size margin s.color x y hout]

/-- C14, at the pixel (0, 0) of the 50-pixel canvas with margin 5 and a
one-frame pattern. -/
theorem C14_margin_band_is_background_witness :
    ∃ anim, createBasicGif
        { pattern := [{ color := 2, duration := 10 }],
          colorTracking := [("white", 0), ("black", 1), ("red", 2)] }
        50 5 (fun _ => ["white", "black", "red"]) = Except.ok anim ∧
      anim.Image.map (fun im => im.ColorIndexAt 0 0) = [0] := by
  have hok := createBasicGif_ok
    { pattern := [{ color := 2, duration := 10 }],
      colorTracking := [("white", 0), ("black", 1), ("red", 2)] }
    50 5 (fun _ => ["white", "black", "red"]) (Or.inr (by decide))
  refine ⟨_, hok, ?_⟩
  rw [map_eq_replicate_of_forall _ _ 0
    (C14_margin_band_is_background
      { pattern := [{ color := 2, duration := 10 }],
        colorTracking := [("white", 0), ("black", 1), ("red", 2)] }
      50 5 (fun _ => ["white", "black", "red"]) 0 0 (Or.inl (by decide)) _ hok),
    buildAnimation_Image_length]
  rfl

/-- C15, what the code does: for every size ≥ 1 the image of every frame of the
animation that `createBasicGif` returns has the rectangle (0,0)–(size−1,size−1)
with exclusive upper corner, so it is (size−1) × (size−1) pixels and covers the
coordinates 0..size−2 only; the coordinate size−1 lies outside it.  (A new
image does read 0 everywhere.) -/
theorem C15_image_is_one_pixel_short (g : Globals) (size margin : Int)
    (order : Nat → List String) (hsize : 1 ≤ size) :
    (∀ anim, createBasicGif g size margin order = Except.ok anim →
      ∀ im ∈ anim.Image,
        im.Rect = { MinX := 0, MinY := 0, MaxX := size - 1, MaxY := size - 1 } ∧
        im.Rect.Dx = size - 1 ∧ im.Rect.Dy = size - 1 ∧
        im.Pix.length = ((size - 1) * (size - 1)).toNat ∧
        (∀ v, im.Rect.contains (size - 1) v = false ∧
          im.Rect.contains v (size - 1) = false)) ∧
    (∀ im, image.NewPaletted (image.Rect 0 0 (size - 1) (size - 1))
        (buildPalette g.colorTracking order) = Except.ok im →
      ∀ (x y : Int), im.ColorIndexAt x y = 0) := by
  constructor
  · intro anim hok im him
    rw [createBasicGif_eq_ok g size margin order anim hok] at him
    obtain ⟨s, -, hr, hw, -⟩ := buildAnimation_pixel_of_mem g size margin order im him 0 0
    rw [Rect_of_pos size hsize] at hr
    obtain ⟨-, -, -, hlen⟩ := hw
    rw [hr] at hlen
    refine ⟨hr, by rw [hr]; simp [image.Rectangle.Dx], by rw [hr]; simp [image.Rectangle.Dy],
      ?_, ?_⟩
    · simpa [image.Rectangle.Dx, image.Rectangle.Dy] using hlen
    · intro v
      rw [hr]
      simp [image.Rectangle.contains]
  · intro im him x y
    unfold image.NewPaletted at him
    split at him
    · cases him
      exact image.ColorIndexAt_fresh _ _ x y
    · cases him

/-- C15, at the default canvas (size 500) with a one-frame pattern: the image
is 499 × 499. -/
theorem C15_image_is_one_pixel_short_witness :
    ∃ anim, createBasicGif
        { pattern := [{ color := 2, duration := 10 }],
          colorTracking := [("white", 0), ("black", 1), ("red", 2)] }
        500 25 (fun _ => ["white", "black", "red"]) = Except.ok anim ∧
      anim.Image.map (fun im => (im.Rect.Dx, im.Rect.Dy)) = [(499, 499)] := by
  have hok := createBasicGif_ok
    { pattern := [{ color := 2, duration := 10 }],
      colorTracking := [("white", 0), ("black", 1), ("red", 2)] }
    500 25 (fun _ => ["white", "black", "red"]) (Or.inr (by decide))
  have h := (C15_image_is_one_pixel_short
    { pattern := [{ color := 2, duration := 10 }],
      colorTracking := [("white", 0), ("black", 1), ("red", 2)] }
    500 25 (fun _ => ["white", "black", "red"]) (by decide)).1 _ hok
  refine ⟨_, hok, ?_⟩
  rw [map_eq_replicate_of_forall _ _ ((499 : Int), (499 : Int))
    (fun im him => Prod.ext (h im him).2.1 (h im him).2.2.1), buildAnimation_Image_length]
  rfl

/-- C16: for every canvas with margin ≥ 0 (margin 0 included), every state of
the pattern and every frame of the animation that `createBasicGif` returns, a
pixel in the last row or last column (x = size − 1 or y = size − 1) reads
palette index 0; for size ≥ 1 a write to such a pixel leaves the image
unchanged. -/
theorem C16_last_row_and_column_are_background (g : Globals) (size margin : Int)
    (order : Nat → List String) (x y : Int) (hmargin : 0 ≤ margin)
    (hlast : x = size - 1 ∨ y = size - 1) :
    ∀ anim, createBasicGif g size margin order = Except.ok anim →
      ∀ im ∈ anim.Image,
        im.ColorIndexAt x y = 0 ∧ (1 ≤ size → ∀ v, im.SetColorIndex x y v = im) := by
  intro anim hok im him
  rw [createBasicGif_eq_ok g size margin order anim hok] at him
  obtain ⟨s, -, hr, -, hv⟩ := buildAnimation_pixel_of_mem g size margin order im him x y
  by_cases hs : 1 ≤ size
  · have hnot : ¬ (image.Rect 0 0 (size - 1) (size - 1)).contains x y = true := by
      rw [Rect_contains_of_pos size x y hs]
      omega
    refine ⟨by rw [hv, pixelValue_not_in_rect size margin s.color x y hnot], ?_⟩
    intro _ v
    unfold image.Paletted.SetColorIndex
    rw [hr, if_neg hnot]
  · refine ⟨?_, fun h => absurd h hs⟩
    rw [hv, pixelValue_not_visited size margin s.color x y]
    by_cases hx : margin ≤ x ∧ x < size - margin
    · exact Or.inr (by omega)
    · exact Or.inl hx

/-- C16, at the pixel (3, 2) of the 4-pixel canvas with margin 0 and a
one-frame pattern. -/
theorem C16_last_row_and_column_are_background_witness :
    ∃ anim, createBasicGif
        { pattern := [{ color := 2, duration := 10 }],
          colorTracking := [("white", 0), ("black", 1), ("red", 2)] }
        4 0 (fun _ => ["white", "black", "red"]) = Except.ok anim ∧
      anim.Image.map (fun im => im.ColorIndexAt 3 2) = [0] := by
  have hok := createBasicGif_ok
    { pattern := [{ color := 2, duration := 10 }],
      colorTracking := [("white", 0), ("black", 1), ("red", 2)] }
    4 0 (fun _ => ["white", "black", "red"]) (Or.inr (by decide))
  refine ⟨_, hok, ?_⟩
  rw [map_eq_replicate_of_forall _ _ 0
    (fun im him => ((C16_last_row_and_column_are_background
      { pattern := [{ color := 2, duration := 10 }],
        colorTracking := [("white", 0), ("black", 1), ("red", 2)] }
      4 0 (fun _ => ["white", "black", "red"]) 3 2 (by decide) (Or.inl (by decide)))
      _ hok im him).1),
    buildAnimation_Image_length]
  rfl

/-- C17: with size 500, margin 25 and the default pattern the radius is 225;
the run returns six images; the pixel (250, 250) holds in every frame that
frame's colour index (it is interior); the pixel (250, 25) has truncated
distance exactly 225 = radius and holds index 1 in every frame (it is
border). -/
theorem C17_default_canvas_centre_and_tie (order : Nat → List String) :
    (size - border * 2).tdiv 2 = 225 ∧
    distanceFromCenter 250 25 (size.tdiv 2) (size.tdiv 2) = 225 ∧
    ∃ g anim, parsePattern patternInput = Except.ok g ∧
      Run patternInput size border order = Except.ok anim ∧
      anim.Image.length = 6 ∧
      anim.Image.map (fun im => im.ColorIndexAt 250 250)
        = g.pattern.map (fun f => f.color) ∧
      anim.Image.map (fun im => im.ColorIndexAt 250 25) = [1, 1, 1, 1, 1, 1] := by
  have hd0 : distanceFromCenter 250 250 ((500 : Int).tdiv 2) ((500 : Int).tdiv 2) = (0 : Nat) :=
    distanceFromCenter_eq _ _ _ _ 0 (by decide) (by decide)
  have hd1 : distanceFromCenter 250 25 ((500 : Int).tdiv 2) ((500 : Int).tdiv 2) = (225 : Nat) :=
    distanceFromCenter_eq _ _ _ _ 225 (by decide) (by decide)
  have hin : ∀ c, pixelValue 500 25 c 250 250 = c % 256 := fun c =>
    pixelValue_interior 500 25 c 250 250 (by decide) (by decide) (by decide)
      (by rw [hd0]; decide)
  have hbo : ∀ c, pixelValue 500 25 c 250 25 = 1 := fun c =>
    pixelValue_border 500 25 c 250 25 (by decide) (by decide) (by decide)
      (by rw [hd1]; decide) (by rw [hd1]; decide)
  refine ⟨by decide, hd1, _, _, parsePattern_default,
    (Run_of_parsePattern patternInput _ size border order parsePattern_default).trans
      (createBasicGif_ok _ size border order (Or.inr (by decide))), ?_, ?_, ?_⟩
  · rw [buildAnimation_Image_length]
    rfl
  · show (buildAnimation _ 500 25 order).Image.map (fun im => im.ColorIndexAt 250 250) = _
    rw [buildAnimation_pixel_map]
    simp only [hin]
    decide
  · show (buildAnimation _ 500 25 order).Image.map (fun im => im.ColorIndexAt 250 25) = _
    rw [buildAnimation_pixel_map]
    simp only [hbo]
    rfl

/-- C18 as stated fails: with size 10 and border 5 (size ≤ 2·border), and with
the negative size −3, the run is not rejected; it hands the encoder an
animation with one image and one delay for the one frame of "red 10". -/
theorem C18_counterexample :
    (∃ anim, Run "red 10" 10 5 (fun _ => ["white", "black", "red"]) = Except.ok anim ∧
      anim.Image.length = 1 ∧ anim.Delay = [10]) ∧
    (∃ anim, Run "red 10" (-3) 2 (fun _ => ["white", "black", "red"]) = Except.ok anim ∧
      anim.Image.length = 1 ∧ anim.Delay = [10]) := by
  constructor
  · refine ⟨_, (Run_of_parsePattern _ _ _ _ _ parsePattern_red_10).trans
      (createBasicGif_ok _ _ _ _ (Or.inr (by decide))), ?_, ?_⟩
    · rw [buildAnimation_Image_length]
      rfl
    · rw [buildAnimation_Delay]
      rfl
  · refine ⟨_, (Run_of_parsePattern _ _ _ _ _ parsePattern_red_10).trans
      (createBasicGif_ok _ _ _ _ (Or.inr (by decide))), ?_, ?_⟩
    · rw [buildAnimation_Image_length]
      rfl
    · rw [buildAnimation_Delay]
      rfl

/-- C18, amended: size and border are never checked and there is no
ConfigError.  For every pattern with an even number of tokens and every size
and border, also with size ≤ 2·border or negative values: when
`image.NewPaletted` accepts the (size−1)² pixels, the run builds one image per
frame and hands the animation to the encoder, and if size ≤ 2·border the
pixel loops visit nothing, so every pixel of every image holds index 0; when
(size−1)² does not fit an `int` and the pattern has a frame, the run stops
with the panic of `image.NewPaletted`. -/
theorem C18_small_canvas_is_accepted (input : String)
    (heven : (strings.Split input).length % 2 = 0)
    (size border : Int) (order : Nat → List String) :
    ∃ g, parsePattern input = Except.ok g ∧
      ((size - 1) * (size - 1) < 2 ^ 63 →
        ∃ anim, Run input size border order = Except.ok anim ∧
          anim.Image.length = g.pattern.length ∧
          anim.Delay.length = g.pattern.length ∧
          (size ≤ 2 * border → ∀ im ∈ anim.Image, ∀ x y, im.ColorIndexAt x y = 0)) ∧
      (g.pattern ≠ [] → 2 ^ 63 ≤ (size - 1) * (size - 1) →
        Run input size border order
          = Except.error RuntimePanic.hugeOrNegativeDimensions) := by
  have hparse := parsePattern_even input heven
  refine ⟨_, hparse, ?_, ?_⟩
  · intro halloc
    refine ⟨_, (Run_of_parsePattern input _ size border order hparse).trans
      (createBasicGif_ok _ size border order (Or.inr halloc)),
      buildAnimation_Image_length _ _ _ _, ?_, ?_⟩
    · rw [buildAnimation_Delay, List.length_map]
    · intro hs im him x y
      obtain ⟨s, -, -, -, hv⟩ := buildAnimation_pixel_of_mem _ size border order im him x y
      rw [hv, pixelValue_not_visited size border s.color x y]
      by_cases hx : border ≤ x ∧ x < size - border
      · exact absurd hx (by omega)
      · exact Or.inl hx
  · intro hne hbig
    rw [Run_of_parsePattern input _ size border order hparse]
    exact createBasicGif_error _ size border order hne hbig

/-- C18 amended, at the pattern "red 10" with size 10 and border 5, and with
size 4294967297 and border 5. -/
theorem C18_small_canvas_is_accepted_witness :
    (strings.Split "red 10").length % 2 = 0 ∧
    (∃ anim, Run "red 10" 10 5 (fun _ => ["white", "black", "red"]) = Except.ok anim ∧
      anim.Image.length = 1 ∧
      anim.Image.map (fun im => im.ColorIndexAt 5 5) = [0]) ∧
    Run "red 10" 4294967297 5 (fun _ => ["white", "black", "red"])
      = Except.error RuntimePanic.hugeOrNegativeDimensions := by
  obtain ⟨g, hg, h1, -⟩ :=
    C18_small_canvas_is_accepted "red 10" (by decide) 10 5 (fun _ => ["white", "black", "red"])
  obtain ⟨g', hg', -, h2⟩ :=
    C18_small_canvas_is_accepted "red 10" (by decide) 4294967297 5
      (fun _ => ["white", "black", "red"])
  rw [parsePattern_red_10] at hg hg'
  cases hg
  cases hg'
  obtain ⟨anim, hrun, hlen, -, hz⟩ := h1 (by decide)
  refine ⟨by decide, ⟨anim, hrun, hlen, ?_⟩, h2 (by decide) (by decide)⟩
  rw [map_eq_replicate_of_forall _ _ 0 (fun im him => hz (by decide) im him 5 5), hlen]
  rfl

/-- C19: for every even size and every margin with 1 ≤ margin and
2·margin < size, and every state of the pattern (a non-empty pattern gives at
least one image in the animation that `createBasicGif` returns), the four
extreme points of the disc all have truncated
distance exactly radius; the leftmost pixel (margin, size/2) and the topmost
pixel (size/2, margin) hold index 1 in every frame, while their mirror images
(size − margin, size/2) and (size/2, size − margin) hold index 0. -/
theorem C19_disc_is_clipped_right_and_bottom (g : Globals) (size margin : Int)
    (order : Nat → List String) (hsize : size % 2 = 0) (hmargin : 1 ≤ margin)
    (hfit : 2 * margin < size) :
    distanceFromCenter margin (size.tdiv 2) (size.tdiv 2) (size.tdiv 2)
      = (size - margin * 2).tdiv 2 ∧
    distanceFromCenter (size.tdiv 2) margin (size.tdiv 2) (size.tdiv 2)
      = (size - margin * 2).tdiv 2 ∧
    distanceFromCenter (size - margin) (size.tdiv 2) (size.tdiv 2) (size.tdiv 2)
      = (size - margin * 2).tdiv 2 ∧
    distanceFromCenter (size.tdiv 2) (size - margin) (size.tdiv 2) (size.tdiv 2)
      = (size - margin * 2).tdiv 2 ∧
    ∀ anim, createBasicGif g size margin order = Except.ok anim →
      (g.pattern ≠ [] → anim.Image ≠ []) ∧
      ∀ im ∈ anim.Image,
        im.ColorIndexAt margin (size.tdiv 2) = 1 ∧
        im.ColorIndexAt (size.tdiv 2) margin = 1 ∧
        im.ColorIndexAt (size - margin) (size.tdiv 2) = 0 ∧
        im.ColorIndexAt (size.tdiv 2) (size - margin) = 0 := by
  have e1 : size.tdiv 2 = size / 2 := tdiv_two_of_nonneg size (by omega)
  have e2 : (size - margin * 2).tdiv 2 = (size - margin * 2) / 2 :=
    tdiv_two_of_nonneg _ (by omega)
  have hc : size.tdiv 2 - margin = (size - margin * 2).tdiv 2 := by omega
  have hr0 : 0 ≤ (size - margin * 2).tdiv 2 := by omega
  have d1 : distanceFromCenter margin (size.tdiv 2) (size.tdiv 2) (size.tdiv 2)
      = (size - margin * 2).tdiv 2 :=
    distanceFromCenter_of_sq _ _ _ _ _ hr0 (by rw [← hc]; ring)
  have d2 : distanceFromCenter (size.tdiv 2) margin (size.tdiv 2) (size.tdiv 2)
      = (size - margin * 2).tdiv 2 :=
    distanceFromCenter_of_sq _ _ _ _ _ hr0 (by rw [← hc]; ring)
  have hm : size - margin - size.tdiv 2 = (size - margin * 2).tdiv 2 := by omega
  have d3 : distanceFromCenter (size - margin) (size.tdiv 2) (size.tdiv 2) (size.tdiv 2)
      = (size - margin * 2).tdiv 2 :=
    distanceFromCenter_of_sq _ _ _ _ _ hr0 (by rw [hm]; ring)
  have d4 : distanceFromCenter (size.tdiv 2) (size - margin) (size.tdiv 2) (size.tdiv 2)
      = (size - margin * 2).tdiv 2 :=
    distanceFromCenter_of_sq _ _ _ _ _ hr0 (by rw [hm]; ring)
  refine ⟨d1, d2, d3, d4, ?_⟩
  intro anim hok
  rw [createBasicGif_eq_ok g size margin order anim hok]
  constructor
  · intro hne hnil
    have hl := buildAnimation_Image_length g size margin order
    rw [hnil] at hl
    exact hne (List.length_eq_zero.1 hl.symm)
  · intro im him
    have hx : margin ≤ margin ∧ margin < size - margin := by omega
    have hy : margin ≤ size.tdiv 2 ∧ size.tdiv 2 < size - margin := by omega
    have hr1 : (image.Rect 0 0 (size - 1) (size - 1)).contains margin (size.tdiv 2) = true :=
      (Rect_contains_of_pos size _ _ (by omega)).2 (by omega)
    have hr2 : (image.Rect 0 0 (size - 1) (size - 1)).contains (size.tdiv 2) margin = true :=
      (Rect_contains_of_pos size _ _ (by omega)).2 (by omega)
    refine ⟨?_, ?_, ?_, ?_⟩
    · obtain ⟨s, -, -, -, hv⟩ :=
        buildAnimation_pixel_of_mem g size margin order im him margin (size.tdiv 2)
      rw [hv, pixelValue_border size margin s.color _ _ hx hy hr1 (by rw [d1]; omega)
        (by rw [d1])]
    · obtain ⟨s, -, -, -, hv⟩ :=
        buildAnimation_pixel_of_mem g size margin order im him (size.tdiv 2) margin
      rw [hv, pixelValue_border size margin s.color _ _ hy hx hr2 (by rw [d2]; omega)
        (by rw [d2])]
    · obtain ⟨s, -, -, -, hv⟩ :=
        buildAnimation_pixel_of_mem g size margin order im him (size - margin) (size.tdiv 2)
      rw [hv, pixelValue_not_visited size margin s.color _ _ (Or.inl (by omega))]
    · obtain ⟨s, -, -, -, hv⟩ :=
        buildAnimation_pixel_of_mem g size margin order im him (size.tdiv 2) (size - margin)
      rw [hv, pixelValue_not_visited size margin s.color _ _ (Or.inr (by omega))]

/-- C19, at the default canvas (size 500, margin 25) with a one-frame pattern:
the pixels (25, 250) and (250, 25) hold 1, their mirrors (475, 250) and
(250, 475) hold 0. -/
theorem C19_disc_is_clipped_right_and_bottom_witness :
    ∃ anim, createBasicGif
        { pattern := [{ color := 2, duration := 10 }],
          colorTracking := [("white", 0), ("black", 1), ("red", 2)] }
        500 25 (fun _ => ["white", "black", "red"]) = Except.ok anim ∧
      anim.Image.map
        (fun im => (im.ColorIndexAt 25 250, im.ColorIndexAt 250 25,
          im.ColorIndexAt 475 250, im.ColorIndexAt 250 475)) = [(1, 1, 0, 0)] := by
  have hok := createBasicGif_ok
    { pattern := [{ color := 2, duration := 10 }],
      colorTracking := [("white", 0), ("black", 1), ("red", 2)] }
    500 25 (fun _ => ["white", "black", "red"]) (Or.inr (by decide))
  have h := ((C19_disc_is_clipped_right_and_bottom
    { pattern := [{ color := 2, duration := 10 }],
      colorTracking := [("white", 0), ("black", 1), ("red", 2)] }
    500 25 (fun _ => ["white", "black", "red"]) (by decide) (by decide)
    (by decide)).2.2.2.2 _ hok).2
  have e1 : (500 : Int).tdiv 2 = 250 := by decide
  have e2 : (500 : Int) - 25 = 475 := by decide
  rw [e1, e2] at h
  refine ⟨_, hok, ?_⟩
  rw [map_eq_replicate_of_forall _ _ ((1 : Nat), (1 : Nat), (0 : Nat), (0 : Nat))
    (fun im him => by
      obtain ⟨a, b, c, d⟩ := h im him
      rw [a, b, c, d]),
    buildAnimation_Image_length]
  rfl

/-- C20: when size − 2·margin < 20 no pixel is interior.  For every state of
the pattern, in the animation that `createBasicGif` returns every pixel of
every frame holds 0 or 1 and all images are equal; and the bitmaps are the
same whatever pattern (colours, palette map, iteration order) the animation is
built from. -/
theorem C20_thin_disc_has_no_interior (g g' : Globals) (size margin : Int)
    (order order' : Nat → List String) (hthin : size - margin * 2 < 20) :
    ∀ anim, createBasicGif g size margin order = Except.ok anim →
      (∀ im ∈ anim.Image, ∀ x y, im.ColorIndexAt x y = 0 ∨ im.ColorIndexAt x y = 1) ∧
      (∀ im ∈ anim.Image, ∀ im' ∈ anim.Image, im = im') ∧
      (∀ anim', createBasicGif g' size margin order' = Except.ok anim' →
        ∀ im ∈ anim.Image, ∀ im' ∈ anim'.Image, im.Rect = im'.Rect ∧ im.Pix = im'.Pix) := by
  have key : ∀ (h h' : Globals) (o o' : Nat → List String),
      ∀ im ∈ (buildAnimation h size margin o).Image,
      ∀ im' ∈ (buildAnimation h' size margin o').Image,
        im.Rect = im'.Rect ∧ im.Stride = im'.Stride ∧ im.Pix = im'.Pix := by
    intro h h' o o' im him im' him'
    obtain ⟨_, _, r1, w1, _⟩ := buildAnimation_pixel_of_mem h size margin o im him 0 0
    obtain ⟨_, _, r2, w2, _⟩ := buildAnimation_pixel_of_mem h' size margin o' im' him' 0 0
    have hr : im.Rect = im'.Rect := by rw [r1, r2]
    refine ⟨hr, by rw [w1.2.2.1, w2.2.2.1, hr], ?_⟩
    apply Pix_eq_of_ColorIndexAt_eq im im' w1 w2 hr
    intro x y
    obtain ⟨s, -, -, -, hv⟩ := buildAnimation_pixel_of_mem h size margin o im him x y
    obtain ⟨s', -, -, -, hv'⟩ := buildAnimation_pixel_of_mem h' size margin o' im' him' x y
    rw [hv, hv']
    exact pixelValue_no_interior_eq size margin s.color s'.color x y hthin
  intro anim hok
  rw [createBasicGif_eq_ok g size margin order anim hok]
  refine ⟨?_, ?_, ?_⟩
  · intro im him x y
    obtain ⟨s, -, -, -, hv⟩ := buildAnimation_pixel_of_mem g size margin order im him x y
    rw [hv]
    exact pixelValue_no_interior size margin s.color x y hthin
  · intro im him im' him'
    obtain ⟨k1, k2, k3⟩ := key g g order order im him im' him'
    have p1 := buildAnimation_Palette g size margin order im him
    have p2 := buildAnimation_Palette g size margin order im' him'
    cases im
    cases im'
    simp only [image.Paletted.mk.injEq]
    simp only at k1 k2 k3 p1 p2
    exact ⟨k3, k2, k1, by rw [p1, p2]⟩
  · intro anim' hok' im him im' him'
    rw [createBasicGif_eq_ok g' size margin order' anim' hok'] at him'
    obtain ⟨k1, -, k3⟩ := key g g' order order' im him im' him'
    exact ⟨k1, k3⟩

/-- C20, at the 30-pixel canvas with margin 6 (size − 2·margin = 18) and a
two-frame pattern of two colours: the two images are equal. -/
theorem C20_thin_disc_has_no_interior_witness :
    ∃ anim im, createBasicGif
        { pattern := [{ color := 2, duration := 10 }, { color := 3, duration := 10 }],
          colorTracking := [("white", 0), ("black", 1), ("red", 2), ("redoff", 3)] }
        30 6 (fun _ => ["white", "black", "red", "redoff"]) = Except.ok anim ∧
      anim.Image = [im, im] := by
  have hok := createBasicGif_ok
    { pattern := [{ color := 2, duration := 10 }, { color := 3, duration := 10 }],
      colorTracking := [("white", 0), ("black", 1), ("red", 2), ("redoff", 3)] }
    30 6 (fun _ => ["white", "black", "red", "redoff"]) (Or.inr (by decide))
  have h := (C20_thin_disc_has_no_interior
    { pattern := [{ color := 2, duration := 10 }, { color := 3, duration := 10 }],
      colorTracking := [("white", 0), ("black", 1), ("red", 2), ("redoff", 3)] }
    { pattern := [{ color := 2, duration := 10 }, { color := 3, duration := 10 }],
      colorTracking := [("white", 0), ("black", 1), ("red", 2), ("redoff", 3)] }
    30 6 (fun _ => ["white", "black", "red", "redoff"])
    (fun _ => ["white", "black", "red", "redoff"]) (by decide) _ hok).2.1
  have hl := buildAnimation_Image_length
    { pattern := [{ color := 2, duration := 10 }, { color := 3, duration := 10 }],
      colorTracking := [("white", 0), ("black", 1), ("red", 2), ("redoff", 3)] }
    30 6 (fun _ => ["white", "black", "red", "redoff"])
  revert h hl hok
  generalize (buildAnimation
    { pattern := [{ color := 2, duration := 10 }, { color := 3, duration := 10 }],
      colorTracking := [("white", 0), ("black", 1), ("red", 2), ("redoff", 3)] }
    30 6 (fun _ => ["white", "black", "red", "redoff"])) = anim
  intro hok h hl
  refine ⟨anim, ?_⟩
  match hI : anim.Image, hl with
  | [a, b], _ =>
    rw [hI] at h
    have hab : a = b := h a (by simp) b (by simp)
    exact ⟨a, hok, by rw [hab]⟩
